import Mathlib

/-!
# SuperGlue post-network matching: a shallow embedding of `superglue.cpp`

The C++ source manipulates `torch::Tensor` values.  A tensor is embedded as its
shape together with its entries by index; the scalar type `α` stands for the
tensor's floating dtype and is idealised as a linearly ordered field (the
numerical theorems take `α = ℝ`).  The two transcendental primitives of the
source, `Tensor::log` and `torch::logsumexp`, are parameters of the embedded
functions, so that every definition below is executable.

Library facts used by the embedding (libtorch API):
* `a + b`, `a - b`, `a / b` broadcast: a dimension of size one is stretched;
* `Tensor::max(dim, keepdim)` returns the tuple `(values, indices)`, the index
  being that of the first maximal entry;
* an `int64` tensor times a floating scalar is a floating tensor;
* `Tensor::gather(dim, index)` requires an `int64` index tensor and throws otherwise;
* `torch::Dict::insert` adds a binding when the key is not yet present.

Conventions: tensor sizes are natural numbers; `int` members and parameters are
integers (no value in the source comes near the 32-bit bounds); the loop
`for (auto i = 0; i < iters; ++i)` runs `iters.toNat` times, that is, not at all
for a negative `iters`; `.to(device_)` and the `std::cout` traces do not change
any value and are left out; the inference module `module_` is a parameter.
-/

namespace SuperGlue

/-! ## Tensors -/

/-- Rank-1 tensor: size and entries. -/
structure Tensor1 (α : Type) where
  size0 : Nat
  val : Nat → α

/-- Rank-2 tensor: sizes and entries. -/
structure Tensor2 (α : Type) where
  size0 : Nat
  size1 : Nat
  val : Nat → Nat → α

/-- Rank-3 tensor: sizes and entries. -/
structure Tensor3 (α : Type) where
  size0 : Nat
  size1 : Nat
  size2 : Nat
  val : Nat → Nat → Nat → α

/-- Size of a broadcast dimension: a dimension of size one takes the other size. -/
def bsize (a b : Nat) : Nat := if a = 1 then b else a

/-- Index into a dimension that may be broadcast: a dimension of size one is read at `0`. -/
def bidx (size i : Nat) : Nat := if size = 1 then 0 else i

section Ops

variable {α : Type}

/-- Elementwise binary operation on rank-2 tensors with broadcasting. -/
def Tensor2.zipWith (f : α → α → α) (a b : Tensor2 α) : Tensor2 α where
  size0 := bsize a.size0 b.size0
  size1 := bsize a.size1 b.size1
  val := fun i j =>
    f (a.val (bidx a.size0 i) (bidx a.size1 j)) (b.val (bidx b.size0 i) (bidx b.size1 j))

/-- Elementwise binary operation on rank-3 tensors with broadcasting. -/
def Tensor3.zipWith (f : α → α → α) (a b : Tensor3 α) : Tensor3 α where
  size0 := bsize a.size0 b.size0
  size1 := bsize a.size1 b.size1
  size2 := bsize a.size2 b.size2
  val := fun k i j =>
    f (a.val (bidx a.size0 k) (bidx a.size1 i) (bidx a.size2 j))
      (b.val (bidx b.size0 k) (bidx b.size1 i) (bidx b.size2 j))

/-- The tensor `a + b`. -/
def Tensor3.add [Add α] (a b : Tensor3 α) : Tensor3 α := Tensor3.zipWith (· + ·) a b

/-- The tensor `a - b`. -/
def Tensor2.sub [Sub α] (a b : Tensor2 α) : Tensor2 α := Tensor2.zipWith (· - ·) a b

/-- The tensor `a / b`. -/
def Tensor2.div [Div α] (a b : Tensor2 α) : Tensor2 α := Tensor2.zipWith (· / ·) a b

/-- The tensor `a - s` for a zero-dimensional tensor `s`. -/
def Tensor3.subScalar [Sub α] (a : Tensor3 α) (s : α) : Tensor3 α where
  size0 := a.size0
  size1 := a.size1
  size2 := a.size2
  val := fun k i j => a.val k i j - s

/-- The tensor `a + s` for a zero-dimensional tensor `s`. -/
def Tensor1.addScalar [Add α] (a : Tensor1 α) (s : α) : Tensor1 α where
  size0 := a.size0
  val := fun i => a.val i + s

/-- The call `s.expand({d0, d1, d2})` on a one-element tensor `s`. -/
def Tensor3.expandScalar (s : α) (d0 d1 d2 : Nat) : Tensor3 α where
  size0 := d0
  size1 := d1
  size2 := d2
  val := fun _ _ _ => s

/-- The call `s.expand(d0)` on a zero-dimensional tensor `s`. -/
def Tensor1.expandScalar (s : α) (d0 : Nat) : Tensor1 α where
  size0 := d0
  val := fun _ => s

/-- The call `s.unsqueeze_(0)` on a zero-dimensional tensor `s`. -/
def Tensor1.ofScalar (s : α) : Tensor1 α where
  size0 := 1
  val := fun _ => s

/-- The call `torch::cat({a, b})` on rank-1 tensors. -/
def Tensor1.cat (a b : Tensor1 α) : Tensor1 α where
  size0 := a.size0 + b.size0
  val := fun i => if i < a.size0 then a.val i else b.val (i - a.size0)

/-- The call `torch::cat({a, b}, -1)` on rank-3 tensors. -/
def Tensor3.catLast (a b : Tensor3 α) : Tensor3 α where
  size0 := a.size0
  size1 := a.size1
  size2 := a.size2 + b.size2
  val := fun k i j => if j < a.size2 then a.val k i j else b.val k i (j - a.size2)

/-- The call `torch::cat({a, b}, 1)` on rank-3 tensors. -/
def Tensor3.cat1 (a b : Tensor3 α) : Tensor3 α where
  size0 := a.size0
  size1 := a.size1 + b.size1
  size2 := a.size2
  val := fun k i j => if i < a.size1 then a.val k i j else b.val k (i - a.size1) j

/-- The call `t.unsqueeze(0).expand({b, -1})` on a rank-1 tensor. -/
def Tensor1.unsqueeze0Expand (t : Tensor1 α) (b : Nat) : Tensor2 α where
  size0 := b
  size1 := t.size0
  val := fun _ i => t.val i

/-- The call `torch::zeros_like(t)`. -/
def Tensor2.zeros_like [Zero α] (t : Tensor2 α) : Tensor2 α where
  size0 := t.size0
  size1 := t.size1
  val := fun _ _ => 0

/-- The call `t.unsqueeze(1)` on a rank-2 tensor. -/
def Tensor2.unsqueeze1 (t : Tensor2 α) : Tensor3 α where
  size0 := t.size0
  size1 := 1
  size2 := t.size1
  val := fun k _ j => t.val k j

/-- The call `t.unsqueeze(2)` on a rank-2 tensor. -/
def Tensor2.unsqueeze2 (t : Tensor2 α) : Tensor3 α where
  size0 := t.size0
  size1 := t.size1
  size2 := 1
  val := fun k i _ => t.val k i

/-- The call `t.unsqueeze_(0)` on a rank-2 tensor. -/
def Tensor2.unsqueeze0 (t : Tensor2 α) : Tensor3 α where
  size0 := 1
  size1 := t.size0
  size2 := t.size1
  val := fun _ i j => t.val i j

/-- The call `torch::logsumexp(t, 2)`: the reduction runs over the last index. -/
def Tensor3.logsumexp2 (logsumexp : List α → α) (t : Tensor3 α) : Tensor2 α where
  size0 := t.size0
  size1 := t.size1
  val := fun k i => logsumexp ((List.range t.size2).map (fun j => t.val k i j))

/-- The call `torch::logsumexp(t, 1)`: the reduction runs over the middle index. -/
def Tensor3.logsumexp1 (logsumexp : List α → α) (t : Tensor3 α) : Tensor2 α where
  size0 := t.size0
  size1 := t.size2
  val := fun k j => logsumexp ((List.range t.size1).map (fun i => t.val k i j))

/-- The call `t.slice(1, start, stop)`. -/
def Tensor3.slice1 (t : Tensor3 α) (start stop : Nat) : Tensor3 α where
  size0 := t.size0
  size1 := min stop t.size1 - start
  size2 := t.size2
  val := fun k i j => t.val k (start + i) j

/-- The call `t.slice(2, start, stop)`. -/
def Tensor3.slice2 (t : Tensor3 α) (start stop : Nat) : Tensor3 α where
  size0 := t.size0
  size1 := t.size1
  size2 := min stop t.size2 - start
  val := fun k i j => t.val k i (start + j)

/-- Index of the first maximal entry among `f 0, ..., f k`. -/
def argmaxUpTo [LT α] [DecidableRel (fun (x y : α) => x < y)] (f : Nat → α) : Nat → Nat
  | 0 => 0
  | k + 1 => if f (argmaxUpTo f k) < f (k + 1) then k + 1 else argmaxUpTo f k

/-- The call `t.max(2)`: the tuple `(values, indices)` of the maxima over the last index. -/
def Tensor3.max2 [LT α] [DecidableRel (fun (x y : α) => x < y)] (t : Tensor3 α) :
    Tensor2 α × Tensor2 Nat :=
  (⟨t.size0, t.size1, fun k i => t.val k i (argmaxUpTo (fun j => t.val k i j) (t.size2 - 1))⟩,
   ⟨t.size0, t.size1, fun k i => argmaxUpTo (fun j => t.val k i j) (t.size2 - 1)⟩)

/-- The call `t.max(1)`: the tuple `(values, indices)` of the maxima over the middle index. -/
def Tensor3.max1 [LT α] [DecidableRel (fun (x y : α) => x < y)] (t : Tensor3 α) :
    Tensor2 α × Tensor2 Nat :=
  (⟨t.size0, t.size2, fun k j => t.val k (argmaxUpTo (fun i => t.val k i j) (t.size1 - 1)) j⟩,
   ⟨t.size0, t.size2, fun k j => argmaxUpTo (fun i => t.val k i j) (t.size1 - 1)⟩)

/-- The call `t.max(1, true)` on a rank-2 tensor: `(values, indices)`, reduced dimension kept. -/
def Tensor2.max1keep [LT α] [DecidableRel (fun (x y : α) => x < y)] (t : Tensor2 α) :
    Tensor2 α × Tensor2 Nat :=
  (⟨t.size0, 1, fun i _ => t.val i (argmaxUpTo (fun j => t.val i j) (t.size1 - 1))⟩,
   ⟨t.size0, 1, fun i _ => argmaxUpTo (fun j => t.val i j) (t.size1 - 1)⟩)

/-- A counted loop `for (i = 0; i < k; ++i) s = body(s)`. -/
def forLoop {σ : Type} (body : σ → σ) : Nat → σ → σ
  | 0, s => s
  | k + 1, s => forLoop body k (body s)

end Ops

/-! ## The optimal-transport solver -/

section Solver

variable {α : Type} [LinearOrderedField α]

/-- One pass of the loop body of `logSinkhornIterations` on the pair `(u, v)`. -/
def sinkhornBody (logsumexp : List α → α) (Z : Tensor3 α) (log_mu log_nu : Tensor2 α)
    (uv : Tensor2 α × Tensor2 α) : Tensor2 α × Tensor2 α :=
  let u := log_mu.sub ((Z.add uv.2.unsqueeze1).logsumexp2 logsumexp)
  let v := log_nu.sub ((Z.add u.unsqueeze2).logsumexp1 logsumexp)
  (u, v)

/-- The dual potentials `(u, v)` when the loop of `logSinkhornIterations` exits:
`for (auto i = 0; i < iters; ++i)` runs `iters.toNat` times. -/
def sinkhornPotentials (logsumexp : List α → α) (Z : Tensor3 α) (log_mu log_nu : Tensor2 α)
    (iters : Int) : Tensor2 α × Tensor2 α :=
  forLoop (sinkhornBody logsumexp Z log_mu log_nu) iters.toNat
    (Tensor2.zeros_like log_mu, Tensor2.zeros_like log_nu)

/-- Embedding of `SuperGlue::logSinkhornIterations`. -/
def logSinkhornIterations (logsumexp : List α → α) (Z : Tensor3 α) (log_mu log_nu : Tensor2 α)
    (iters : Int) : Tensor3 α :=
  let uv := sinkhornPotentials logsumexp Z log_mu log_nu iters
  (Z.add uv.1.unsqueeze2).add uv.2.unsqueeze1

/-- Embedding of `SuperGlue::logOptimalTransport`, statement by statement. -/
def logOptimalTransport (log : α → α) (logsumexp : List α → α) (scores : Tensor3 α)
    (alpha : α) (iters : Int) : Tensor3 α :=
  let b := scores.size0
  let m := scores.size1
  let n := scores.size2
  let ms : α := (m : α)
  let ns : α := (n : α)
  let bins0 := Tensor3.expandScalar alpha b m 1
  let bins1 := Tensor3.expandScalar alpha b 1 n
  let alpha1 := Tensor3.expandScalar alpha b 1 1
  let couplings := Tensor3.cat1 (Tensor3.catLast scores bins0) (Tensor3.catLast bins1 alpha1)
  let norm := -(log (ms + ns))
  let log_mu := Tensor1.cat (Tensor1.expandScalar norm m)
    ((Tensor1.ofScalar (log ns)).addScalar norm)
  let log_nu := Tensor1.cat (Tensor1.expandScalar norm n)
    ((Tensor1.ofScalar (log ms)).addScalar norm)
  let log_mu := log_mu.unsqueeze0Expand b
  let log_nu := log_nu.unsqueeze0Expand b
  let Z := logSinkhornIterations logsumexp couplings log_mu log_nu iters
  Z.subScalar norm

/-- The value of the local `couplings` of `logOptimalTransport`. -/
def couplingsOf (scores : Tensor3 α) (alpha : α) : Tensor3 α :=
  Tensor3.cat1 (Tensor3.catLast scores (Tensor3.expandScalar alpha scores.size0 scores.size1 1))
    (Tensor3.catLast (Tensor3.expandScalar alpha scores.size0 1 scores.size2)
      (Tensor3.expandScalar alpha scores.size0 1 1))

/-- The value of the local `norm` of `logOptimalTransport`. -/
def normOf (log : α → α) (m n : Nat) : α := -(log ((m : α) + (n : α)))

/-- The value of the local `log_mu` of `logOptimalTransport` (after the `expand`). -/
def logMuOf (log : α → α) (b m n : Nat) : Tensor2 α :=
  (Tensor1.cat (Tensor1.expandScalar (normOf log m n) m)
    ((Tensor1.ofScalar (log (n : α))).addScalar (normOf log m n))).unsqueeze0Expand b

/-- The value of the local `log_nu` of `logOptimalTransport` (after the `expand`). -/
def logNuOf (log : α → α) (b m n : Nat) : Tensor2 α :=
  (Tensor1.cat (Tensor1.expandScalar (normOf log m n) n)
    ((Tensor1.ofScalar (log (m : α))).addScalar (normOf log m n))).unsqueeze0Expand b

end Solver

/-! ## The solver as the specification words it (section 4.2), entry by entry -/

section SolverSpec

variable {α : Type} [LinearOrderedField α]

/-- Specification step 1: the augmented matrix, scores in the top-left block, `alpha` in
the last column, the last row and the corner. -/
def specCouplings (scores : Nat → Nat → α) (alpha : α) (m n : Nat) (i j : Nat) : α :=
  if i < m ∧ j < n then scores i j else alpha

/-- Specification step 2: `norm = -log(m + n)`. -/
def specNorm (log : α → α) (m n : Nat) : α := -(log (((m + n : Nat) : α)))

/-- Specification step 3: `log_mu = [norm (m times), log(n) + norm]`. -/
def specLogMu (log : α → α) (m n : Nat) (i : Nat) : α :=
  if i < m then specNorm log m n else log (n : α) + specNorm log m n

/-- Specification step 4: `log_nu = [norm (n times), log(m) + norm]`. -/
def specLogNu (log : α → α) (m n : Nat) (j : Nat) : α :=
  if j < n then specNorm log m n else log (m : α) + specNorm log m n

/-- Specification step 6, one round: `u` from `v`, then `v` from the just-updated `u`. -/
def specRound (logsumexp : List α → α) (c : Nat → Nat → α) (log_mu log_nu : Nat → α)
    (m n : Nat) (uv : (Nat → α) × (Nat → α)) : (Nat → α) × (Nat → α) :=
  let u := fun i => log_mu i - logsumexp ((List.range (n + 1)).map (fun j => c i j + uv.2 j))
  let v := fun j => log_nu j - logsumexp ((List.range (m + 1)).map (fun i => c i j + u i))
  (u, v)

/-- Specification steps 5 and 6: `u = 0`, `v = 0`, then exactly `rounds` rounds. -/
def specPotentials (log : α → α) (logsumexp : List α → α) (scores : Nat → Nat → α) (alpha : α)
    (m n rounds : Nat) : (Nat → α) × (Nat → α) :=
  (specRound logsumexp (specCouplings scores alpha m n) (specLogMu log m n)
    (specLogNu log m n) m n)^[rounds] (fun _ => 0, fun _ => 0)

/-- Specification step 7: `Z = couplings + u (+) v - norm`. -/
def specTransport (log : α → α) (logsumexp : List α → α) (scores : Nat → Nat → α) (alpha : α)
    (m n rounds : Nat) (i j : Nat) : α :=
  let uv := specPotentials log logsumexp scores alpha m n rounds
  specCouplings scores alpha m n i j + uv.1 i + uv.2 j - specNorm log m n

/-- The relation between the potentials of the tensor program and those of the
specification, for batch element `k`. -/
def PotentialsAgree (b m n k : Nat) (uv : Tensor2 α × Tensor2 α)
    (st : (Nat → α) × (Nat → α)) : Prop :=
  uv.1.size0 = b ∧ uv.1.size1 = m + 1 ∧ uv.2.size0 = b ∧ uv.2.size1 = n + 1
    ∧ (∀ i, i < m + 1 → uv.1.val k i = st.1 i) ∧ (∀ j, j < n + 1 → uv.2.val k j = st.2 j)

end SolverSpec

/-! ## Keypoint normalisation and the matcher -/

section Matcher

variable {α : Type} [LinearOrderedField α]

/-- The data members of the `SuperGlue` object that the member functions read. -/
structure Fields where
  image_rows_ : Int
  image_cols_ : Int
  sinkhorn_iterations_ : Int
  weight_ : String

/-- Embedding of the constructor `SuperGlue::SuperGlue`: the members are read from the
configuration as they are; the only check is the `assert` on `weight_`. -/
def construct (image_rows image_cols sinkhorn_iterations : Int) (weight : String) :
    Option Fields :=
  if weight = "outdoor" ∨ weight = "indoor" then
    some ⟨image_rows, image_cols, sinkhorn_iterations, weight⟩
  else none

/-- The call `torch::ones(d)`. -/
def Tensor1.ones (d : Nat) : Tensor1 α where
  size0 := d
  val := fun _ => 1

/-- The tensor `t * s` for an `int` scalar `s`. -/
def Tensor1.mulInt (t : Tensor1 α) (s : Int) : Tensor1 α where
  size0 := t.size0
  val := fun i => t.val i * (s : α)

/-- The call `torch::stack({a, b}, 1)` on rank-1 tensors. -/
def Tensor1.stack1 (a b : Tensor1 α) : Tensor2 α where
  size0 := a.size0
  size1 := 2
  val := fun i j => if j = 0 then a.val i else b.val i

/-- The tensor `t / s` for a scalar `s`. -/
def Tensor2.divScalar (t : Tensor2 α) (s : α) : Tensor2 α where
  size0 := t.size0
  size1 := t.size1
  val := fun i j => t.val i j / s

/-- The tensor `t * s` for an index tensor `t` and a floating scalar `s`. -/
def Tensor2.indexMulScalar (t : Tensor2 Nat) (s : α) : Tensor2 α where
  size0 := t.size0
  size1 := t.size1
  val := fun i j => (t.val i j : α) * s

/-- The tensor `size` of `normalizeKeypoints`. -/
def imageSize (self : Fields) : Tensor2 α :=
  let one : Tensor1 α := Tensor1.ones 1
  Tensor1.stack1 (one.mulInt self.image_cols_) (one.mulInt self.image_rows_)

/-- The tensor `scaling` of `normalizeKeypoints`: `std::get<1>` selects the second
component of the tuple returned by `size.max(1, true)`. -/
def scalingOf (self : Fields) : Tensor2 α :=
  (Tensor2.max1keep (imageSize self : Tensor2 α)).2.indexMulScalar 1.7

/-- Embedding of `SuperGlue::normalizeKeypoints`. -/
def normalizeKeypoints (self : Fields) (kpts : Tensor2 α) : Tensor3 α :=
  let size : Tensor2 α := imageSize self
  let center := size.divScalar 2
  let scaling : Tensor2 α := scalingOf self
  ((kpts.sub center).div scaling).unsqueeze0

/-- The members of `cv::KeyPoint` that `match` reads. -/
structure KeyPoint (α : Type) where
  pt_x : α
  pt_y : α
  response : α

/-- A `cv::Mat` of type `CV_32F`: its size and its row-major buffer. -/
structure Mat (α : Type) where
  rows : Nat
  cols : Nat
  data : Nat → α

/-- The matrix `kpts_mat0` after the first loop of `match`: row `i` is `(pt.y, pt.x)`. -/
def kptsMat (kpts : List (KeyPoint α)) : Mat α where
  rows := kpts.length
  cols := 2
  data := fun p =>
    match kpts[p / 2]? with
    | some kp => if p % 2 = 0 then kp.pt_y else kp.pt_x
    | none => 0

/-- The matrix `scores_mat0` after the first loop of `match`: entry `i` is `response`. -/
def scoresMat (kpts : List (KeyPoint α)) : Mat α where
  rows := kpts.length
  cols := 1
  data := fun p =>
    match kpts[p]? with
    | some kp => kp.response
    | none => 0

/-- The call `torch::from_blob(data, {d0, d1}, torch::kFloat)`. -/
def from_blob2 (data : Nat → α) (d0 d1 : Nat) : Tensor2 α where
  size0 := d0
  size1 := d1
  val := fun i j => data (i * d1 + j)

/-- The call `torch::from_blob(data, {d0, d1, d2}, torch::kFloat)`. -/
def from_blob3 (data : Nat → α) (d0 d1 d2 : Nat) : Tensor3 α where
  size0 := d0
  size1 := d1
  size2 := d2
  val := fun k i j => data ((k * d1 + i) * d2 + j)

/-- A `torch::Tensor` with its rank and dtype, as stored in a dictionary or bound to `auto`. -/
inductive AnyTensor (α : Type) where
  | float2 (t : Tensor2 α)
  | float3 (t : Tensor3 α)
  | long2 (t : Tensor2 Nat)

/-- A `torch::Dict<std::string, torch::Tensor>` in insertion order. -/
abbrev Dict (α : Type) := List (String × AnyTensor α)

/-- The call `data.insert(key, value)`. -/
def Dict.insert (d : Dict α) (key : String) (value : AnyTensor α) : Dict α :=
  if d.any (fun e => e.1 == key) then d else d ++ [(key, value)]

/-- The tensor `kpts0_tensor` of `match`. -/
def kptsTensor (kpts : List (KeyPoint α)) : Tensor2 α :=
  from_blob2 (kptsMat kpts).data kpts.length 2

/-- The tensor `scores0_tensor` of `match`. -/
def scoresTensor (kpts : List (KeyPoint α)) : Tensor2 α :=
  from_blob2 (scoresMat kpts).data 1 kpts.length

/-- The tensor `descriptors0` of `match`. -/
def descriptorsTensor (desc : Mat α) : Tensor3 α :=
  from_blob3 desc.data 1 desc.cols desc.rows

/-- The dictionary `data` that `match` hands to `module_->forward`. -/
def matchData (self : Fields) (kpts0 kpts1 : List (KeyPoint α)) (desc0 desc1 : Mat α) :
    Dict α :=
  let kpts0_tensor := kptsTensor kpts0
  let kpts1_tensor := kptsTensor kpts1
  let scores0_tensor := scoresTensor kpts0
  let scores1_tensor := scoresTensor kpts1
  let _descriptors0 := descriptorsTensor desc0
  let _descriptors1 := descriptorsTensor desc1
  let kpts0_t := normalizeKeypoints self kpts0_tensor
  let kpts1_t := normalizeKeypoints self kpts1_tensor
  let data : Dict α := []
  let data := data.insert "keypoints0" (AnyTensor.float3 kpts0_t)
  let data := data.insert "keypoints1" (AnyTensor.float3 kpts1_t)
  let data := data.insert "scores0" (AnyTensor.float2 scores0_tensor)
  let data := data.insert "scores1" (AnyTensor.float2 scores1_tensor)
  let data := data.insert "descriptors0" (AnyTensor.float2 scores0_tensor)
  let data := data.insert "descriptors1" (AnyTensor.float2 scores1_tensor)
  data

/-- The tensor `scores` of `match`: the inference module is the parameter `forward`, its
two outputs go to `logOptimalTransport` with the member `sinkhorn_iterations_`. -/
def matchScores (log : α → α) (logsumexp : List α → α) (self : Fields)
    (forward : Dict α → Tensor3 α × α) (kpts0 kpts1 : List (KeyPoint α))
    (desc0 desc1 : Mat α) : Tensor3 α :=
  let data := matchData self kpts0 kpts1 desc0 desc1
  let out := forward data
  logOptimalTransport log logsumexp out.1 out.2 self.sinkhorn_iterations_

/-- The call `self.gather(1, index)`: the index tensor must have dtype `int64`, otherwise
libtorch throws. -/
def gather1 (self index : AnyTensor α) : Option (AnyTensor α) :=
  match index, self with
  | AnyTensor.long2 idx, AnyTensor.float2 t =>
      some (AnyTensor.float2 ⟨idx.size0, idx.size1, fun i j => t.val i (idx.val i j)⟩)
  | AnyTensor.long2 idx, AnyTensor.long2 t =>
      some (AnyTensor.long2 ⟨idx.size0, idx.size1, fun i j => t.val i (idx.val i j)⟩)
  | _, _ => none

/-- The names bound by `match` after the solver has run. -/
structure MatchBindings (α : Type) where
  indices0 : AnyTensor α
  values0 : AnyTensor α
  indices1 : AnyTensor α
  values1 : AnyTensor α
  aa : Option (AnyTensor α)

/-- The tail of `match`: the two structured bindings of `max` over the matrix without
its last row and column, and the `gather`. -/
def matchBindings (scores : Tensor3 α) : MatchBindings α :=
  let r0 := ((scores.slice1 0 (scores.size1 - 1)).slice2 0 (scores.size2 - 1)).max2
  let indices0 := AnyTensor.float2 r0.1
  let values0 := AnyTensor.long2 r0.2
  let r1 := ((scores.slice1 0 (scores.size1 - 1)).slice2 0 (scores.size2 - 1)).max1
  let indices1 := AnyTensor.float2 r1.1
  let values1 := AnyTensor.long2 r1.2
  let aa := gather1 indices0 indices1
  ⟨indices0, values0, indices1, values1, aa⟩

/-- Embedding of `SuperGlue::match` as a whole: the names it has bound at its last
statement (`aa` is `none` when the `gather` throws). -/
def match_ (log : α → α) (logsumexp : List α → α) (self : Fields)
    (forward : Dict α → Tensor3 α × α) (kpts0 kpts1 : List (KeyPoint α))
    (desc0 desc1 : Mat α) : MatchBindings α :=
  matchBindings (matchScores log logsumexp self forward kpts0 kpts1 desc0 desc1)

/-- A score tensor of shape `(1, 1, 1)` whose single entry is `0`. -/
def unitScores : Tensor3 α where
  size0 := 1
  size1 := 1
  size2 := 1
  val := fun _ _ _ => 0

/-- A log-assignment tensor of shape `(1, 3, 3)` (so `N0 = N1 = 2`) with `Z[0,0,1] = 5`,
`Z[0,1,0] = 7` and zeros elsewhere. -/
def peakScores : Tensor3 α where
  size0 := 1
  size1 := 3
  size2 := 3
  val := fun _ i j => if i = 0 ∧ j = 1 then 5 else if i = 1 ∧ j = 0 then 7 else 0

/-- One keypoint at pixel `x = 240`, `y = 320`, the centre of a 480 x 640 (cols x rows) image. -/
def centreKeypoints : List (KeyPoint α) := [⟨240, 320, 1⟩]

/-- A keypoint tensor with the single row `(0, 0)`. -/
def originRow : Tensor2 α where
  size0 := 1
  size1 := 2
  val := fun _ _ => 0

/-- A descriptor matrix with one row and one column. -/
def unitDesc : Mat α := ⟨1, 1, fun _ => 2⟩

/-- A portrait configuration: 640 rows, 480 columns. -/
def portrait : Fields := ⟨640, 480, 20, "indoor"⟩

/-- A landscape configuration: 480 rows, 640 columns. -/
def landscape : Fields := ⟨480, 640, 20, "indoor"⟩

end Matcher

/-! ## Refinement: the tensor program computes the entrywise specification -/

section Refinement

theorem couplingsOf_val {α : Type} (scores : Tensor3 α) (alpha : α) (k i j : Nat) :
    (couplingsOf scores alpha).val k i j
      = specCouplings (scores.val k) alpha scores.size1 scores.size2 i j := by
  simp only [couplingsOf, Tensor3.cat1, Tensor3.catLast, Tensor3.expandScalar, specCouplings]
  by_cases hi : i < scores.size1 <;> by_cases hj : j < scores.size2 <;> simp [hi, hj]

theorem couplingsOf_size {α : Type} (scores : Tensor3 α) (alpha : α) :
    (couplingsOf scores alpha).size0 = scores.size0
      ∧ (couplingsOf scores alpha).size1 = scores.size1 + 1
      ∧ (couplingsOf scores alpha).size2 = scores.size2 + 1 := by
  simp [couplingsOf, Tensor3.cat1, Tensor3.catLast, Tensor3.expandScalar]

variable {α : Type} [LinearOrderedField α]

theorem bidx_of_lt {size i : Nat} (h : i < size) : bidx size i = i := by
  unfold bidx
  split
  · omega
  · rfl

theorem bsize_self (a : Nat) : bsize a a = a := by
  unfold bsize
  split <;> simp_all

theorem bsize_one_right (a : Nat) : bsize a 1 = a := by
  unfold bsize
  split <;> simp_all

theorem normOf_eq (log : α → α) (m n : Nat) : normOf log m n = specNorm log m n := by
  simp [normOf, specNorm]

theorem logMuOf_val (log : α → α) (b m n k i : Nat) :
    (logMuOf log b m n).val k i = specLogMu log m n i := by
  simp only [logMuOf, Tensor1.unsqueeze0Expand, Tensor1.cat, Tensor1.expandScalar,
    Tensor1.addScalar, Tensor1.ofScalar, specLogMu, normOf_eq]

theorem logNuOf_val (log : α → α) (b m n k j : Nat) :
    (logNuOf log b m n).val k j = specLogNu log m n j := by
  simp only [logNuOf, Tensor1.unsqueeze0Expand, Tensor1.cat, Tensor1.expandScalar,
    Tensor1.addScalar, Tensor1.ofScalar, specLogNu, normOf_eq]

theorem logOptimalTransport_unfold (log : α → α) (logsumexp : List α → α) (scores : Tensor3 α)
    (alpha : α) (iters : Int) :
    logOptimalTransport log logsumexp scores alpha iters
      = (logSinkhornIterations logsumexp (couplingsOf scores alpha)
          (logMuOf log scores.size0 scores.size1 scores.size2)
          (logNuOf log scores.size0 scores.size1 scores.size2) iters).subScalar
            (normOf log scores.size1 scores.size2) := rfl

theorem specLogNu_eq (log : α → α) (m n j : Nat) :
    specLogNu log m n j = specLogMu log n m j := by
  simp [specLogNu, specLogMu, specNorm, Nat.add_comm]

theorem logMuOf_size (log : α → α) (b m n : Nat) :
    (logMuOf log b m n).size0 = b ∧ (logMuOf log b m n).size1 = m + 1 := by
  simp [logMuOf, Tensor1.unsqueeze0Expand, Tensor1.cat, Tensor1.expandScalar,
    Tensor1.addScalar, Tensor1.ofScalar]

theorem logNuOf_size (log : α → α) (b m n : Nat) :
    (logNuOf log b m n).size0 = b ∧ (logNuOf log b m n).size1 = n + 1 := by
  simp [logNuOf, Tensor1.unsqueeze0Expand, Tensor1.cat, Tensor1.expandScalar,
    Tensor1.addScalar, Tensor1.ofScalar]

theorem sinkhornBody_agree (logsumexp : List α → α) (Z : Tensor3 α) (log_mu log_nu : Tensor2 α)
    (c : Nat → Nat → α) (lm ln : Nat → α) (b m n k : Nat) (hk : k < b)
    (hZ0 : Z.size0 = b) (hZ1 : Z.size1 = m + 1) (hZ2 : Z.size2 = n + 1)
    (hZ : ∀ i j, Z.val k i j = c i j)
    (hmu0 : log_mu.size0 = b) (hmu1 : log_mu.size1 = m + 1) (hmu : ∀ i, log_mu.val k i = lm i)
    (hnu0 : log_nu.size0 = b) (hnu1 : log_nu.size1 = n + 1) (hnu : ∀ j, log_nu.val k j = ln j)
    (uv : Tensor2 α × Tensor2 α) (st : (Nat → α) × (Nat → α))
    (h : PotentialsAgree b m n k uv st) :
    PotentialsAgree b m n k (sinkhornBody logsumexp Z log_mu log_nu uv)
      (specRound logsumexp c lm ln m n st) := by
  obtain ⟨hu0, hu1, hv0, hv1, hu, hv⟩ := h
  have hu_val : ∀ i, i < m + 1 →
      (log_mu.sub ((Z.add uv.2.unsqueeze1).logsumexp2 logsumexp)).val k i
        = lm i - logsumexp ((List.range (n + 1)).map (fun j => c i j + st.2 j)) := by
    intro i hi
    simp only [Tensor2.sub, Tensor2.zipWith, Tensor3.logsumexp2, Tensor3.add, Tensor3.zipWith,
      Tensor2.unsqueeze1, hZ0, hZ1, hZ2, hmu0, hmu1, hv0, hv1, bsize_self, bsize_one_right, bidx_of_lt hk,
      bidx_of_lt hi, hmu]
    congr 2
    apply List.map_congr_left
    intro j hj
    have hj1 : j < n + 1 := List.mem_range.mp hj
    rw [bidx_of_lt hj1, hZ, hv j hj1]
  refine ⟨?_, ?_, ?_, ?_, ?_, ?_⟩
  · simp [sinkhornBody, Tensor2.sub, Tensor2.zipWith, Tensor3.logsumexp2, Tensor3.add,
      Tensor3.zipWith, Tensor2.unsqueeze1, hZ0, hmu0, hv0, bsize_self, bsize_one_right]
  · simp [sinkhornBody, Tensor2.sub, Tensor2.zipWith, Tensor3.logsumexp2, Tensor3.add,
      Tensor3.zipWith, Tensor2.unsqueeze1, hZ1, hmu1, bsize_self, bsize_one_right]
  · simp [sinkhornBody, Tensor2.sub, Tensor2.zipWith, Tensor3.logsumexp2, Tensor3.logsumexp1,
      Tensor3.add, Tensor3.zipWith, Tensor2.unsqueeze1, Tensor2.unsqueeze2, hZ0, hmu0, hnu0,
      hv0, bsize_self, bsize_one_right]
  · simp [sinkhornBody, Tensor2.sub, Tensor2.zipWith, Tensor3.logsumexp2, Tensor3.logsumexp1,
      Tensor3.add, Tensor3.zipWith, Tensor2.unsqueeze1, Tensor2.unsqueeze2, hZ2, hnu1,
      bsize_self, bsize_one_right]
  · intro i hi
    exact hu_val i hi
  · intro j hj
    have hsz0 : (log_mu.sub ((Z.add uv.2.unsqueeze1).logsumexp2 logsumexp)).size0 = b := by
      simp [Tensor2.sub, Tensor2.zipWith, Tensor3.logsumexp2, Tensor3.add,
        Tensor3.zipWith, Tensor2.unsqueeze1, hZ0, hmu0, hv0, bsize_self, bsize_one_right]
    have hsz1 : (log_mu.sub ((Z.add uv.2.unsqueeze1).logsumexp2 logsumexp)).size1 = m + 1 := by
      simp [Tensor2.sub, Tensor2.zipWith, Tensor3.logsumexp2, Tensor3.add,
        Tensor3.zipWith, Tensor2.unsqueeze1, hZ1, hmu1, bsize_self, bsize_one_right]
    simp only [sinkhornBody, specRound]
    generalize log_mu.sub ((Z.add uv.2.unsqueeze1).logsumexp2 logsumexp) = u1 at hu_val hsz0 hsz1
    simp only [Tensor2.sub, Tensor2.zipWith, Tensor3.logsumexp1, Tensor3.add, Tensor3.zipWith,
      Tensor2.unsqueeze2, hZ0, hZ1, hZ2, hnu0, hnu1, hsz0, hsz1, bsize_self, bsize_one_right, bidx_of_lt hk,
      bidx_of_lt hj, hnu]
    congr 2
    apply List.map_congr_left
    intro i hi
    have hi1 : i < m + 1 := List.mem_range.mp hi
    rw [bidx_of_lt hi1, hZ, hu_val i hi1]

theorem forLoop_agree {σ τ : Type} (R : σ → τ → Prop) (f : σ → σ) (g : τ → τ)
    (hstep : ∀ s t, R s t → R (f s) (g t)) (k : Nat) (s : σ) (t : τ) (h : R s t) :
    R (forLoop f k s) (g^[k] t) := by
  induction k generalizing s t with
  | zero => exact h
  | succ k ih => exact ih (f s) (g t) (hstep s t h)

theorem sinkhornPotentials_agree (log : α → α) (logsumexp : List α → α) (scores : Tensor3 α)
    (alpha : α) (iters : Int) (k : Nat) (hk : k < scores.size0) :
    PotentialsAgree scores.size0 scores.size1 scores.size2 k
      (sinkhornPotentials logsumexp (couplingsOf scores alpha)
        (logMuOf log scores.size0 scores.size1 scores.size2)
        (logNuOf log scores.size0 scores.size1 scores.size2) iters)
      (specPotentials log logsumexp (scores.val k) alpha scores.size1 scores.size2
        iters.toNat) := by
  unfold sinkhornPotentials specPotentials
  apply forLoop_agree
  · intro s t hst
    exact sinkhornBody_agree logsumexp _ _ _ _ _ _ _ _ _ k hk
      (couplingsOf_size scores alpha).1 (couplingsOf_size scores alpha).2.1
      (couplingsOf_size scores alpha).2.2 (fun i j => couplingsOf_val scores alpha k i j)
      (logMuOf_size log _ _ _).1 (logMuOf_size log _ _ _).2
      (fun i => logMuOf_val log _ _ _ k i)
      (logNuOf_size log _ _ _).1 (logNuOf_size log _ _ _).2
      (fun j => logNuOf_val log _ _ _ k j) s t hst
  · refine ⟨?_, ?_, ?_, ?_, ?_, ?_⟩ <;>
      simp [Tensor2.zeros_like, logMuOf_size, logNuOf_size]

theorem forLoop_inv {σ : Type} (P : σ → Prop) (f : σ → σ) (hstep : ∀ s, P s → P (f s))
    (k : Nat) (s : σ) (h : P s) : P (forLoop f k s) := by
  induction k generalizing s with
  | zero => exact h
  | succ k ih => exact ih (f s) (hstep s h)

theorem sinkhornPotentials_size (logsumexp : List α → α) (Z : Tensor3 α)
    (log_mu log_nu : Tensor2 α) (iters : Int) (b m n : Nat)
    (hZ0 : Z.size0 = b) (hZ1 : Z.size1 = m + 1) (hZ2 : Z.size2 = n + 1)
    (hmu0 : log_mu.size0 = b) (hmu1 : log_mu.size1 = m + 1)
    (hnu0 : log_nu.size0 = b) (hnu1 : log_nu.size1 = n + 1) :
    (sinkhornPotentials logsumexp Z log_mu log_nu iters).1.size0 = b
    ∧ (sinkhornPotentials logsumexp Z log_mu log_nu iters).1.size1 = m + 1
    ∧ (sinkhornPotentials logsumexp Z log_mu log_nu iters).2.size0 = b
    ∧ (sinkhornPotentials logsumexp Z log_mu log_nu iters).2.size1 = n + 1 := by
  unfold sinkhornPotentials
  apply forLoop_inv (fun uv : Tensor2 α × Tensor2 α =>
    uv.1.size0 = b ∧ uv.1.size1 = m + 1 ∧ uv.2.size0 = b ∧ uv.2.size1 = n + 1)
  · rintro uv ⟨h1, h2, h3, h4⟩
    simp [sinkhornBody, Tensor2.sub, Tensor2.zipWith, Tensor3.logsumexp2, Tensor3.logsumexp1,
      Tensor3.add, Tensor3.zipWith, Tensor2.unsqueeze1, Tensor2.unsqueeze2, hZ0, hZ1, hZ2,
      hmu0, hmu1, hnu0, hnu1, h3, bsize_self, bsize_one_right]
  · simp [Tensor2.zeros_like, hmu0, hmu1, hnu0, hnu1]

/-- Refinement of `logOptimalTransport`: shape and entries of the returned tensor. -/
theorem logOptimalTransport_refines (log : α → α) (logsumexp : List α → α) (scores : Tensor3 α)
    (alpha : α) (iters : Int) :
    (logOptimalTransport log logsumexp scores alpha iters).size0 = scores.size0
    ∧ (logOptimalTransport log logsumexp scores alpha iters).size1 = scores.size1 + 1
    ∧ (logOptimalTransport log logsumexp scores alpha iters).size2 = scores.size2 + 1
    ∧ ∀ k i j, k < scores.size0 → i < scores.size1 + 1 → j < scores.size2 + 1 →
        (logOptimalTransport log logsumexp scores alpha iters).val k i j
          = specTransport log logsumexp (scores.val k) alpha scores.size1 scores.size2
              iters.toNat i j := by
  have hsz := fun k (hk : k < scores.size0) =>
    sinkhornPotentials_agree log logsumexp scores alpha iters k hk
  have hc := couplingsOf_size scores alpha
  obtain ⟨s1, s2, s3, s4⟩ := sinkhornPotentials_size logsumexp (couplingsOf scores alpha)
    (logMuOf log scores.size0 scores.size1 scores.size2)
    (logNuOf log scores.size0 scores.size1 scores.size2) iters
    scores.size0 scores.size1 scores.size2 hc.1 hc.2.1 hc.2.2
    (logMuOf_size log _ _ _).1 (logMuOf_size log _ _ _).2
    (logNuOf_size log _ _ _).1 (logNuOf_size log _ _ _).2
  rw [logOptimalTransport_unfold]
  refine ⟨?_, ?_, ?_, ?_⟩
  · simp [logSinkhornIterations, Tensor3.subScalar, Tensor3.add,
      Tensor3.zipWith, Tensor2.unsqueeze1, Tensor2.unsqueeze2, hc.1, s1, s3, bsize_self]
  · simp [logSinkhornIterations, Tensor3.subScalar, Tensor3.add,
      Tensor3.zipWith, Tensor2.unsqueeze1, Tensor2.unsqueeze2, hc.2.1, s2, bsize_self,
      bsize_one_right]
  · simp [logSinkhornIterations, Tensor3.subScalar, Tensor3.add,
      Tensor3.zipWith, Tensor2.unsqueeze1, Tensor2.unsqueeze2, hc.2.2, s4, bsize_self,
      bsize_one_right]
  · intro k i j hk hi hj
    obtain ⟨h1, h2, h3, h4, hu, hv⟩ := hsz k hk
    simp only [logSinkhornIterations, Tensor3.subScalar, Tensor3.add,
      Tensor3.zipWith, Tensor2.unsqueeze1, Tensor2.unsqueeze2, hc.1, hc.2.1, hc.2.2, h1, h2, h3,
      h4, bsize_self, bsize_one_right, bidx_of_lt hk, bidx_of_lt hi, bidx_of_lt hj,
      couplingsOf_val, hu i hi, hv j hj, specTransport, normOf_eq]

end Refinement

/-! ## Sinkhorn iteration over the reals

The iteration is studied on sequences `u t`, `v t` of potentials that satisfy the
two update equations; `M` and `N` are the numbers of rows and columns, `a` and `b`
the logarithms of the row and column marginals. -/

section Analysis

open Finset

theorem psi_ge_sq (d : ℝ) : (Real.exp (-(d / 2)) - 1) ^ 2 ≤ Real.exp (-d) - 1 + d := by
  have h1 : Real.exp (-d) = Real.exp (-(d / 2)) ^ 2 := by
    rw [sq, ← Real.exp_add]; congr 1; ring
  have h2 := Real.add_one_le_exp (-(d / 2))
  rw [h1]
  nlinarith

theorem sum_exp_pos (K : ℕ) (hK : 0 < K) (f : ℕ → ℝ) :
    0 < ∑ i ∈ range K, Real.exp (f i) :=
  Finset.sum_pos (fun _ _ => Real.exp_pos _) ⟨0, Finset.mem_range.mpr hK⟩

/-- After an update `w = t - log (∑ exp (g i))`, the sum of `exp (g i + w)` is `exp t` -/
theorem sum_exp_after_update (K : ℕ) (hK : 0 < K) (g : ℕ → ℝ) (t : ℝ) :
    ∑ i ∈ range K, Real.exp (g i + (t - Real.log (∑ i ∈ range K, Real.exp (g i))))
      = Real.exp t := by
  have hpos := sum_exp_pos K hK g
  have : ∀ i ∈ range K, Real.exp (g i + (t - Real.log (∑ i ∈ range K, Real.exp (g i))))
      = Real.exp (g i) * (Real.exp t / (∑ i ∈ range K, Real.exp (g i))) := by
    intro i _
    rw [Real.exp_add, Real.exp_sub, Real.exp_log hpos]
  rw [Finset.sum_congr rfl this, ← Finset.sum_mul]
  field_simp

section Sinkhorn

variable (M N : ℕ) (c : ℕ → ℕ → ℝ) (a b : ℕ → ℝ) (u v : ℕ → ℕ → ℝ)

theorem sink_col_exact (hM : 0 < M)
    (hv : ∀ t j, v (t + 1) j
      = b j - Real.log (∑ i ∈ range M, Real.exp (c i j + u (t + 1) i))) (t j : ℕ) :
    ∑ i ∈ range M, Real.exp (c i j + u (t + 1) i + v (t + 1) j) = Real.exp (b j) := by
  rw [hv]
  exact sum_exp_after_update M hM (fun i => c i j + u (t + 1) i) (b j)

theorem sink_row_exact (hN : 0 < N)
    (hu : ∀ t i, u (t + 1) i
      = a i - Real.log (∑ j ∈ range N, Real.exp (c i j + v t j))) (t i : ℕ) :
    ∑ j ∈ range N, Real.exp (c i j + u (t + 1) i + v t j) = Real.exp (a i) := by
  rw [hu]
  have := sum_exp_after_update N hN (fun j => c i j + v t j)  (a i)
  rw [← this]
  apply Finset.sum_congr rfl
  intro j _
  congr 1
  ring

end Sinkhorn

section Convergence

open Filter Topology

variable (M N : ℕ) (c : ℕ → ℕ → ℝ) (a b : ℕ → ℝ) (u v : ℕ → ℕ → ℝ)

theorem sink_rowSum_eq (hN : 0 < N)
    (hu : ∀ t i, u (t + 1) i
      = a i - Real.log (∑ j ∈ range N, Real.exp (c i j + v t j))) (t i : ℕ) :
    ∑ j ∈ range N, Real.exp (c i j + u (t + 1) i + v (t + 1) j)
      = Real.exp (a i) * Real.exp (-(u (t + 2) i - u (t + 1) i)) := by
  rw [← sink_row_exact N c a u v hN hu (t + 1) i, Finset.sum_mul]
  apply Finset.sum_congr rfl
  intro j _
  rw [← Real.exp_add]
  congr 1
  ring

theorem sink_colSum_eq (hM : 0 < M)
    (hv : ∀ t j, v (t + 1) j
      = b j - Real.log (∑ i ∈ range M, Real.exp (c i j + u (t + 1) i))) (t j : ℕ) :
    ∑ i ∈ range M, Real.exp (c i j + u (t + 1) i + v t j)
      = Real.exp (b j) * Real.exp (-(v (t + 1) j - v t j)) := by
  rw [← sink_col_exact M c b u v hM hv t j, Finset.sum_mul]
  apply Finset.sum_congr rfl
  intro i _
  rw [← Real.exp_add]
  congr 1
  ring

/-- Gain of the `u` update, written with the nonnegative function `exp (-d) - 1 + d` -/
theorem sink_gain_u (hM : 0 < M) (hN : 0 < N)
    (ha : ∑ i ∈ range M, Real.exp (a i) = 1) (hb : ∑ j ∈ range N, Real.exp (b j) = 1)
    (hu : ∀ t i, u (t + 1) i
      = a i - Real.log (∑ j ∈ range N, Real.exp (c i j + v t j)))
    (hv : ∀ t j, v (t + 1) j
      = b j - Real.log (∑ i ∈ range M, Real.exp (c i j + u (t + 1) i))) (t : ℕ) :
    ∑ i ∈ range M, Real.exp (a i) * (u (t + 2) i - u (t + 1) i)
      = ∑ i ∈ range M, Real.exp (a i)
          * (Real.exp (-(u (t + 2) i - u (t + 1) i)) - 1 + (u (t + 2) i - u (t + 1) i)) := by
  have h1 : ∑ i ∈ range M, Real.exp (a i) * Real.exp (-(u (t + 2) i - u (t + 1) i)) = 1 := by
    rw [← hb]
    rw [Finset.sum_congr rfl (fun i _ => (sink_rowSum_eq N c a u v hN hu t i).symm)]
    rw [Finset.sum_comm]
    exact Finset.sum_congr rfl (fun j _ => sink_col_exact M c b u v hM hv t j)
  have h2 : ∀ i ∈ range M, Real.exp (a i)
          * (Real.exp (-(u (t + 2) i - u (t + 1) i)) - 1 + (u (t + 2) i - u (t + 1) i))
       = Real.exp (a i) * Real.exp (-(u (t + 2) i - u (t + 1) i)) - Real.exp (a i)
          + Real.exp (a i) * (u (t + 2) i - u (t + 1) i) := by
    intro i _; ring
  rw [Finset.sum_congr rfl h2, Finset.sum_add_distrib, Finset.sum_sub_distrib, h1, ha]
  ring

theorem sink_gain_v (hM : 0 < M) (hN : 0 < N)
    (ha : ∑ i ∈ range M, Real.exp (a i) = 1) (hb : ∑ j ∈ range N, Real.exp (b j) = 1)
    (hu : ∀ t i, u (t + 1) i
      = a i - Real.log (∑ j ∈ range N, Real.exp (c i j + v t j)))
    (hv : ∀ t j, v (t + 1) j
      = b j - Real.log (∑ i ∈ range M, Real.exp (c i j + u (t + 1) i))) (t : ℕ) :
    ∑ j ∈ range N, Real.exp (b j) * (v (t + 1) j - v t j)
      = ∑ j ∈ range N, Real.exp (b j)
          * (Real.exp (-(v (t + 1) j - v t j)) - 1 + (v (t + 1) j - v t j)) := by
  have h1 : ∑ j ∈ range N, Real.exp (b j) * Real.exp (-(v (t + 1) j - v t j)) = 1 := by
    rw [← ha]
    rw [Finset.sum_congr rfl (fun j _ => (sink_colSum_eq M c b u v hM hv t j).symm)]
    rw [Finset.sum_comm]
    exact Finset.sum_congr rfl (fun i _ => sink_row_exact N c a u v hN hu t i)
  have h2 : ∀ j ∈ range N, Real.exp (b j)
          * (Real.exp (-(v (t + 1) j - v t j)) - 1 + (v (t + 1) j - v t j))
       = Real.exp (b j) * Real.exp (-(v (t + 1) j - v t j)) - Real.exp (b j)
          + Real.exp (b j) * (v (t + 1) j - v t j) := by
    intro j _; ring
  rw [Finset.sum_congr rfl h2, Finset.sum_add_distrib, Finset.sum_sub_distrib, h1, hb]
  ring

theorem psi_nonneg (d : ℝ) : 0 ≤ Real.exp (-d) - 1 + d := by
  have := Real.add_one_le_exp (-d)
  linarith

/-- The dual objective is bounded above along the iteration -/
theorem sink_potential_le (hM : 0 < M)
    (ha : ∑ i ∈ range M, Real.exp (a i) = 1) (hb : ∑ j ∈ range N, Real.exp (b j) = 1)
    (hv : ∀ t j, v (t + 1) j
      = b j - Real.log (∑ i ∈ range M, Real.exp (c i j + u (t + 1) i))) (t : ℕ) :
    ∑ i ∈ range M, Real.exp (a i) * u (t + 1) i + ∑ j ∈ range N, Real.exp (b j) * v (t + 1) j
      ≤ ∑ i ∈ range M, ∑ j ∈ range N, Real.exp (a i) * Real.exp (b j) * (-(c i j)) := by
  have hle : ∀ i ∈ range M, ∀ j ∈ range N, u (t + 1) i + v (t + 1) j ≤ -(c i j) := by
    intro i hi j hj
    have h1 : Real.exp (c i j + u (t + 1) i + v (t + 1) j) ≤ Real.exp (b j) := by
      rw [← sink_col_exact M c b u v hM hv t j]
      exact Finset.single_le_sum (f := fun i => Real.exp (c i j + u (t + 1) i + v (t + 1) j))
        (fun _ _ => (Real.exp_pos _).le) hi
    have h2 : Real.exp (b j) ≤ 1 := by
      rw [← hb]
      exact Finset.single_le_sum (f := fun j => Real.exp (b j))
        (fun _ _ => (Real.exp_pos _).le) hj
    have h3 : c i j + u (t + 1) i + v (t + 1) j ≤ 0 := by
      have := h1.trans h2
      rwa [Real.exp_le_one_iff] at this
    linarith
  have hsplit : ∑ i ∈ range M, Real.exp (a i) * u (t + 1) i
        + ∑ j ∈ range N, Real.exp (b j) * v (t + 1) j
      = ∑ i ∈ range M, ∑ j ∈ range N,
          Real.exp (a i) * Real.exp (b j) * (u (t + 1) i + v (t + 1) j) := by
    have e1 : ∀ i ∈ range M, ∑ j ∈ range N,
          Real.exp (a i) * Real.exp (b j) * (u (t + 1) i + v (t + 1) j)
        = Real.exp (a i) * u (t + 1) i
          + Real.exp (a i) * ∑ j ∈ range N, Real.exp (b j) * v (t + 1) j := by
      intro i _
      have : ∀ j ∈ range N, Real.exp (a i) * Real.exp (b j) * (u (t + 1) i + v (t + 1) j)
          = Real.exp (b j) * (Real.exp (a i) * u (t + 1) i)
            + Real.exp (a i) * (Real.exp (b j) * v (t + 1) j) := by
        intro j _; ring
      rw [Finset.sum_congr rfl this, Finset.sum_add_distrib, ← Finset.sum_mul, hb,
        ← Finset.mul_sum]
      ring
    rw [Finset.sum_congr rfl e1, Finset.sum_add_distrib, ← Finset.sum_mul, ha]
    ring
  rw [hsplit]
  apply Finset.sum_le_sum
  intro i hi
  apply Finset.sum_le_sum
  intro j hj
  exact mul_le_mul_of_nonneg_left (hle i hi j hj)
    (mul_pos (Real.exp_pos _) (Real.exp_pos _)).le

theorem tendsto_one_of_sq_sub_one {x : ℕ → ℝ} (h : Tendsto (fun t => (x t - 1) ^ 2) atTop (𝓝 0)) :
    Tendsto x atTop (𝓝 1) := by
  have h1 : Tendsto (fun t => Real.sqrt ((x t - 1) ^ 2)) atTop (𝓝 0) := by
    have := (Real.continuous_sqrt.tendsto 0).comp h
    simpa using this
  have h2 : Tendsto (fun t => |x t - 1|) atTop (𝓝 0) := by
    refine h1.congr (fun t => ?_)
    exact Real.sqrt_sq_eq_abs _
  have h3 : Tendsto (fun t => x t - 1) atTop (𝓝 0) :=
    (tendsto_zero_iff_abs_tendsto_zero _).mpr h2
  have h4 := h3.add_const 1
  simpa using h4

/-- Sinkhorn iteration in log space: the row sums of the plan converge to the row marginal. -/
theorem sink_rows_tendsto (hM : 0 < M) (hN : 0 < N)
    (ha : ∑ i ∈ range M, Real.exp (a i) = 1) (hb : ∑ j ∈ range N, Real.exp (b j) = 1)
    (hu : ∀ t i, u (t + 1) i
      = a i - Real.log (∑ j ∈ range N, Real.exp (c i j + v t j)))
    (hv : ∀ t j, v (t + 1) j
      = b j - Real.log (∑ i ∈ range M, Real.exp (c i j + u (t + 1) i)))
    (i : ℕ) (hi : i < M) :
    Tendsto (fun t => ∑ j ∈ range N, Real.exp (c i j + u t i + v t j)) atTop
      (𝓝 (Real.exp (a i))) := by
  -- the dual objective
  let G : ℕ → ℝ := fun t =>
    ∑ i ∈ range M, Real.exp (a i) * u (t + 1) i + ∑ j ∈ range N, Real.exp (b j) * v (t + 1) j
  let D : ℕ → ℝ := fun t => ∑ i ∈ range M, Real.exp (a i) * (u (t + 2) i - u (t + 1) i)
  have hD_nonneg_term : ∀ t, ∀ i ∈ range M, 0 ≤ Real.exp (a i)
      * (Real.exp (-(u (t + 2) i - u (t + 1) i)) - 1 + (u (t + 2) i - u (t + 1) i)) :=
    fun t i _ => mul_nonneg (Real.exp_pos _).le (psi_nonneg _)
  have hE_nonneg : ∀ t, 0 ≤ ∑ j ∈ range N, Real.exp (b j) * (v (t + 1) j - v t j) := by
    intro t
    rw [sink_gain_v M N c a b u v hM hN ha hb hu hv t]
    exact Finset.sum_nonneg (fun j _ => mul_nonneg (Real.exp_pos _).le (psi_nonneg _))
  have hstep : ∀ t, G (t + 1) - G t
      = D t + ∑ j ∈ range N, Real.exp (b j) * (v (t + 1 + 1) j - v (t + 1) j) := by
    intro t
    simp only [G, D]
    have e1 : ∑ i ∈ range M, Real.exp (a i) * (u (t + 2) i - u (t + 1) i)
        = ∑ i ∈ range M, Real.exp (a i) * u (t + 2) i
          - ∑ i ∈ range M, Real.exp (a i) * u (t + 1) i := by
      rw [← Finset.sum_sub_distrib]
      exact Finset.sum_congr rfl (fun i _ => by ring)
    have e2 : ∑ j ∈ range N, Real.exp (b j) * (v (t + 1 + 1) j - v (t + 1) j)
        = ∑ j ∈ range N, Real.exp (b j) * v (t + 1 + 1) j
          - ∑ j ∈ range N, Real.exp (b j) * v (t + 1) j := by
      rw [← Finset.sum_sub_distrib]
      exact Finset.sum_congr rfl (fun j _ => by ring)
    rw [e1, e2]
    ring
  have hD_le : ∀ t, D t ≤ G (t + 1) - G t := by
    intro t
    rw [hstep]
    linarith [hE_nonneg (t + 1)]
  have hD_lower : ∀ t, Real.exp (a i) * (Real.exp (-((u (t + 2) i - u (t + 1) i) / 2)) - 1) ^ 2
      ≤ D t := by
    intro t
    simp only [D]
    rw [sink_gain_u M N c a b u v hM hN ha hb hu hv t]
    refine le_trans ?_ (Finset.single_le_sum (hD_nonneg_term t) (Finset.mem_range.mpr hi))
    exact mul_le_mul_of_nonneg_left (psi_ge_sq _) (Real.exp_pos _).le
  have hD_nonneg : ∀ t, 0 ≤ D t := fun t =>
    le_trans (mul_nonneg (Real.exp_pos _).le (sq_nonneg _)) (hD_lower t)
  have hmono : Monotone G := by
    apply monotone_nat_of_le_succ
    intro t
    linarith [hD_le t, hD_nonneg t]
  have hbdd : BddAbove (Set.range G) := by
    refine ⟨∑ i ∈ range M, ∑ j ∈ range N, Real.exp (a i) * Real.exp (b j) * (-(c i j)), ?_⟩
    rintro _ ⟨t, rfl⟩
    exact sink_potential_le M N c a b u v hM ha hb hv t
  have hG := tendsto_atTop_ciSup hmono hbdd
  have hdiff : Tendsto (fun t => G (t + 1) - G t) atTop (𝓝 0) := by
    have := (hG.comp (tendsto_add_atTop_nat 1)).sub hG
    simpa using this
  have hD0 : Tendsto D atTop (𝓝 0) := squeeze_zero hD_nonneg hD_le hdiff
  have hsq : Tendsto (fun t => (Real.exp (-((u (t + 2) i - u (t + 1) i) / 2)) - 1) ^ 2) atTop
      (𝓝 0) := by
    have hpos := Real.exp_pos (a i)
    have h1 : Tendsto (fun t => D t / Real.exp (a i)) atTop (𝓝 0) := by
      simpa using hD0.div_const (Real.exp (a i))
    refine squeeze_zero (fun t => sq_nonneg _) (fun t => ?_) h1
    rw [le_div_iff₀ hpos]
    linarith [hD_lower t]
  have hx := tendsto_one_of_sq_sub_one hsq
  have hx2 : Tendsto (fun t => Real.exp (a i) * Real.exp (-(u (t + 2) i - u (t + 1) i))) atTop
      (𝓝 (Real.exp (a i))) := by
    have h2 := (hx.mul hx).const_mul (Real.exp (a i))
    simp only [mul_one] at h2
    refine h2.congr (fun t => ?_)
    rw [← Real.exp_add]
    congr 2
    ring
  have hshift : Tendsto (fun t => ∑ j ∈ range N, Real.exp (c i j + u (t + 1) i + v (t + 1) j))
      atTop (𝓝 (Real.exp (a i))) :=
    hx2.congr (fun t => (sink_rowSum_eq N c a u v hN hu t i).symm)
  exact (tendsto_add_atTop_iff_nat
    (f := fun t => ∑ j ∈ range N, Real.exp (c i j + u t i + v t j)) 1).mp hshift

end Convergence

end Analysis

/-! ## The solver over the reals

`log` is `Real.log` and `logsumexp` is the logarithm of the sum of the exponentials;
`L` stands for any function with that value on every list. -/

section RealSolver

open Finset Filter Topology

theorem list_sum_map_range (f : ℕ → ℝ) (K : ℕ) :
    ((List.range K).map f).sum = ∑ i ∈ range K, f i := by
  induction K with
  | zero => simp
  | succ K ih =>
    rw [List.range_succ, List.map_append, List.sum_append, ih, Finset.sum_range_succ]
    simp

theorem realLse_range (g : ℕ → ℝ) (K : ℕ) :
    Real.log ((((List.range K).map g).map Real.exp).sum)
      = Real.log (∑ i ∈ range K, Real.exp (g i)) := by
  rw [List.map_map, list_sum_map_range]
  rfl

variable (L : List ℝ → ℝ) (hL : ∀ xs, L xs = Real.log ((xs.map Real.exp).sum))

include hL

theorem specPotentials_u_succ (sc : ℕ → ℕ → ℝ) (alpha : ℝ) (m n t i : ℕ) :
    (specPotentials Real.log L sc alpha m n (t + 1)).1 i
      = specLogMu Real.log m n i - Real.log (∑ j ∈ range (n + 1),
          Real.exp (specCouplings sc alpha m n i j
            + (specPotentials Real.log L sc alpha m n t).2 j)) := by
  unfold specPotentials
  rw [Function.iterate_succ_apply']
  simp only [specRound]
  rw [hL, realLse_range]

theorem specPotentials_v_succ (sc : ℕ → ℕ → ℝ) (alpha : ℝ) (m n t j : ℕ) :
    (specPotentials Real.log L sc alpha m n (t + 1)).2 j
      = specLogNu Real.log m n j - Real.log (∑ i ∈ range (m + 1),
          Real.exp (specCouplings sc alpha m n i j
            + (specPotentials Real.log L sc alpha m n (t + 1)).1 i)) := by
  have h : (specPotentials Real.log L sc alpha m n (t + 1)).2 j
      = specLogNu Real.log m n j - L ((List.range (m + 1)).map (fun i =>
          specCouplings sc alpha m n i j
            + (specPotentials Real.log L sc alpha m n (t + 1)).1 i)) := by
    unfold specPotentials
    rw [Function.iterate_succ_apply']
    rfl
  rw [h, hL, realLse_range]

omit hL

theorem exp_specNorm (m n : ℕ) (h : 0 < m + n) :
    Real.exp (specNorm Real.log m n) = 1 / ((m : ℝ) + n) := by
  have hpos : (0 : ℝ) < ((m + n : ℕ) : ℝ) := by exact_mod_cast h
  rw [specNorm, Real.exp_neg, Real.exp_log hpos]
  push_cast
  rw [one_div]

theorem sum_exp_specLogMu (m n : ℕ) (hn : 1 ≤ n) :
    ∑ i ∈ range (m + 1), Real.exp (specLogMu Real.log m n i) = 1 := by
  have hn0 : (0 : ℝ) < n := by exact_mod_cast hn
  have hm0 : (0 : ℝ) ≤ m := Nat.cast_nonneg m
  have h1 : ∀ i ∈ range m, Real.exp (specLogMu Real.log m n i)
      = Real.exp (specNorm Real.log m n) := by
    intro i hi
    simp [specLogMu, Finset.mem_range.mp hi]
  rw [Finset.sum_range_succ, Finset.sum_congr rfl h1]
  simp only [specLogMu, lt_irrefl, if_false, Finset.sum_const, Finset.card_range, nsmul_eq_mul,
    Real.exp_add, Real.exp_log hn0, exp_specNorm m n (by omega)]
  field_simp

theorem sum_exp_specLogNu (m n : ℕ) (hm : 1 ≤ m) :
    ∑ j ∈ range (n + 1), Real.exp (specLogNu Real.log m n j) = 1 := by
  rw [← sum_exp_specLogMu n m hm]
  exact Finset.sum_congr rfl (fun j _ => by rw [specLogNu_eq])

theorem transport_val_real (scores : Tensor3 ℝ) (alpha : ℝ) (t k i j : ℕ)
    (hk : k < scores.size0) (hi : i < scores.size1 + 1) (hj : j < scores.size2 + 1) :
    Real.exp ((logOptimalTransport Real.log L scores alpha (t : ℤ)).val k i j)
      = Real.exp (specCouplings (scores.val k) alpha scores.size1 scores.size2 i j
          + (specPotentials Real.log L (scores.val k) alpha scores.size1 scores.size2 t).1 i
          + (specPotentials Real.log L (scores.val k) alpha scores.size1 scores.size2 t).2 j)
        * Real.exp (-(specNorm Real.log scores.size1 scores.size2)) := by
  rw [(logOptimalTransport_refines Real.log L scores alpha (t : ℤ)).2.2.2 k i j hk hi hj,
    ← Real.exp_add]
  simp only [specTransport, Int.toNat_ofNat]
  congr 1

include hL

/-- After at least one round the column sums are exact. -/
theorem transport_colSum (scores : Tensor3 ℝ) (alpha : ℝ) (t k j : ℕ)
    (hk : k < scores.size0) (hj : j < scores.size2 + 1) :
    ∑ i ∈ range (scores.size1 + 1),
        Real.exp ((logOptimalTransport Real.log L scores alpha ((t + 1 : ℕ) : ℤ)).val k i j)
      = Real.exp (specLogNu Real.log scores.size1 scores.size2 j
          - specNorm Real.log scores.size1 scores.size2) := by
  have h1 : ∀ i ∈ range (scores.size1 + 1),
      Real.exp ((logOptimalTransport Real.log L scores alpha ((t + 1 : ℕ) : ℤ)).val k i j)
        = Real.exp (specCouplings (scores.val k) alpha scores.size1 scores.size2 i j
          + (specPotentials Real.log L (scores.val k) alpha scores.size1 scores.size2
              (t + 1)).1 i
          + (specPotentials Real.log L (scores.val k) alpha scores.size1 scores.size2
              (t + 1)).2 j)
          * Real.exp (-(specNorm Real.log scores.size1 scores.size2)) :=
    fun i hi => transport_val_real L scores alpha (t + 1) k i j hk (Finset.mem_range.mp hi) hj
  rw [Finset.sum_congr rfl h1, ← Finset.sum_mul]
  rw [sink_col_exact (scores.size1 + 1)
    (specCouplings (scores.val k) alpha scores.size1 scores.size2)
    (specLogNu Real.log scores.size1 scores.size2)
    (fun t i => (specPotentials Real.log L (scores.val k) alpha scores.size1 scores.size2 t).1 i)
    (fun t j => (specPotentials Real.log L (scores.val k) alpha scores.size1 scores.size2 t).2 j)
    (Nat.succ_pos _)
    (fun t j => specPotentials_v_succ L hL (scores.val k) alpha scores.size1 scores.size2 t j)
    t j]
  rw [← Real.exp_add, sub_eq_add_neg]

/-- As the number of rounds grows the row sums tend to the rescaled row marginal. -/
theorem transport_rowSum_tendsto (scores : Tensor3 ℝ) (alpha : ℝ) (k i : ℕ)
    (hm : 1 ≤ scores.size1) (hn : 1 ≤ scores.size2)
    (hk : k < scores.size0) (hi : i < scores.size1 + 1) :
    Tendsto (fun t : ℕ => ∑ j ∈ range (scores.size2 + 1),
        Real.exp ((logOptimalTransport Real.log L scores alpha (t : ℤ)).val k i j)) atTop
      (𝓝 (Real.exp (specLogMu Real.log scores.size1 scores.size2 i
          - specNorm Real.log scores.size1 scores.size2))) := by
  have h1 : ∀ t : ℕ, ∑ j ∈ range (scores.size2 + 1),
        Real.exp ((logOptimalTransport Real.log L scores alpha (t : ℤ)).val k i j)
      = (∑ j ∈ range (scores.size2 + 1),
          Real.exp (specCouplings (scores.val k) alpha scores.size1 scores.size2 i j
          + (specPotentials Real.log L (scores.val k) alpha scores.size1 scores.size2 t).1 i
          + (specPotentials Real.log L (scores.val k) alpha scores.size1 scores.size2 t).2 j))
        * Real.exp (-(specNorm Real.log scores.size1 scores.size2)) := by
    intro t
    rw [Finset.sum_mul]
    exact Finset.sum_congr rfl
      (fun j hj => transport_val_real L scores alpha t k i j hk hi (Finset.mem_range.mp hj))
  have h2 := sink_rows_tendsto (scores.size1 + 1) (scores.size2 + 1)
    (specCouplings (scores.val k) alpha scores.size1 scores.size2)
    (specLogMu Real.log scores.size1 scores.size2)
    (specLogNu Real.log scores.size1 scores.size2)
    (fun t i => (specPotentials Real.log L (scores.val k) alpha scores.size1 scores.size2 t).1 i)
    (fun t j => (specPotentials Real.log L (scores.val k) alpha scores.size1 scores.size2 t).2 j)
    (Nat.succ_pos _) (Nat.succ_pos _)
    (sum_exp_specLogMu scores.size1 scores.size2 hn)
    (sum_exp_specLogNu scores.size1 scores.size2 hm)
    (fun t i => specPotentials_u_succ L hL (scores.val k) alpha scores.size1 scores.size2 t i)
    (fun t j => specPotentials_v_succ L hL (scores.val k) alpha scores.size1 scores.size2 t j)
    i hi
  have h3 := h2.mul_const (Real.exp (-(specNorm Real.log scores.size1 scores.size2)))
  rw [← Real.exp_add, ← sub_eq_add_neg] at h3
  exact h3.congr (fun t => (h1 t).symm)

omit hL

theorem exp_specLogMu_sub_norm (m n i : ℕ) (hn : 1 ≤ n) :
    Real.exp (specLogMu Real.log m n i - specNorm Real.log m n)
      = if i < m then 1 else (n : ℝ) := by
  have hn0 : (0 : ℝ) < n := by exact_mod_cast hn
  unfold specLogMu
  split
  · simp
  · simp [Real.exp_log hn0]

theorem exp_specLogNu_sub_norm (m n j : ℕ) (hm : 1 ≤ m) :
    Real.exp (specLogNu Real.log m n j - specNorm Real.log m n)
      = if j < n then 1 else (m : ℝ) := by
  have hm0 : (0 : ℝ) < m := by exact_mod_cast hm
  unfold specLogNu
  split
  · simp
  · simp [Real.exp_log hm0]

theorem exp_neg_specNorm (m n : ℕ) (h : 0 < m + n) :
    Real.exp (-(specNorm Real.log m n)) = (m : ℝ) + n := by
  have hpos : (0 : ℝ) < ((m + n : ℕ) : ℝ) := by exact_mod_cast h
  rw [specNorm, neg_neg, Real.exp_log hpos]
  push_cast
  rfl

include hL

/-- From the first round on the column sums are constant, hence convergent. -/
theorem transport_colSum_tendsto (scores : Tensor3 ℝ) (alpha : ℝ) (k j : ℕ)
    (hk : k < scores.size0) (hj : j < scores.size2 + 1) :
    Tendsto (fun t : ℕ => ∑ i ∈ range (scores.size1 + 1),
        Real.exp ((logOptimalTransport Real.log L scores alpha (t : ℤ)).val k i j)) atTop
      (𝓝 (Real.exp (specLogNu Real.log scores.size1 scores.size2 j
          - specNorm Real.log scores.size1 scores.size2))) := by
  rw [← tendsto_add_atTop_iff_nat 1]
  exact tendsto_const_nhds.congr
    (fun t => (transport_colSum L hL scores alpha t k j hk hj).symm)

/-- Column sums after `iters ≥ 1` rounds, with the iteration count an `Int`. -/
theorem transport_colSum_int (scores : Tensor3 ℝ) (alpha : ℝ) (iters : Int) (hiters : 1 ≤ iters)
    (hm : 1 ≤ scores.size1) (k j : ℕ) (hk : k < scores.size0) (hj : j < scores.size2 + 1) :
    ∑ i ∈ range (scores.size1 + 1),
        Real.exp ((logOptimalTransport Real.log L scores alpha iters).val k i j)
      = if j < scores.size2 then 1 else (scores.size1 : ℝ) := by
  obtain ⟨r, hr⟩ := Int.eq_ofNat_of_zero_le (by omega : 0 ≤ iters - 1)
  have hit : iters = ((r + 1 : ℕ) : ℤ) := by push_cast; omega
  rw [hit, transport_colSum L hL scores alpha r k j hk hj, exp_specLogNu_sub_norm _ _ _ hm]

omit hL

end RealSolver

/-! ## Facts about `max`, the normaliser and the dictionary -/

section MatcherFacts

variable {α : Type} [LinearOrderedField α]

/-- The index computed by `argmaxUpTo` is in range, its entry is maximal, and every earlier
entry is strictly smaller: it is the first maximiser. -/
theorem argmaxUpTo_spec (f : Nat → α) (k : Nat) :
    argmaxUpTo f k ≤ k ∧ (∀ j, j ≤ k → f j ≤ f (argmaxUpTo f k))
      ∧ (∀ j, j < argmaxUpTo f k → f j < f (argmaxUpTo f k)) := by
  induction k with
  | zero =>
    refine ⟨le_refl _, ?_, ?_⟩
    · intro j hj
      have : j = 0 := by omega
      subst this
      exact le_refl _
    · intro j hj
      simp [argmaxUpTo] at hj
  | succ k ih =>
    obtain ⟨h1, h2, h3⟩ := ih
    unfold argmaxUpTo
    split
    · rename_i hlt
      refine ⟨le_refl _, ?_, ?_⟩
      · intro j hj
        rcases Nat.lt_or_ge j (k + 1) with hj1 | hj1
        · exact le_trans (h2 j (by omega)) hlt.le
        · have : j = k + 1 := by omega
          subst this
          exact le_refl _
      · intro j hj
        exact lt_of_le_of_lt (h2 j (by omega)) hlt
    · rename_i hnlt
      refine ⟨by omega, ?_, h3⟩
      intro j hj
      rcases Nat.lt_or_ge j (k + 1) with hj1 | hj1
      · exact h2 j (by omega)
      · have : j = k + 1 := by omega
        subst this
        exact not_lt.mp hnlt

/-- The divisor of `normalizeKeypoints` is the index of the larger image dimension times
`1.7`: `1.7` when there are more rows than columns and `0` otherwise. -/
theorem scalingOf_val (self : Fields) (i j : Nat) :
    (scalingOf self : Tensor2 α).val i j
      = if (self.image_cols_ : α) < (self.image_rows_ : α) then 1.7 else 0 := by
  simp only [scalingOf, imageSize, Tensor2.max1keep, Tensor2.indexMulScalar, Tensor1.stack1,
    Tensor1.mulInt, Tensor1.ones, argmaxUpTo, one_mul]
  by_cases h : (self.image_cols_ : α) < (self.image_rows_ : α) <;> simp [h]

/-- Entries of the tensor returned by `normalizeKeypoints`, row `i` of a keypoint tensor
with `n ≥ 1` rows and two columns. -/
theorem normalizeKeypoints_val (self : Fields) (kpts : Tensor2 α) (hc : kpts.size1 = 2)
    (i : Nat) (hi : i < kpts.size0) :
    (normalizeKeypoints self kpts).val 0 i 0
        = (kpts.val i 0 - (self.image_cols_ : α) / 2) / (scalingOf self : Tensor2 α).val 0 0
    ∧ (normalizeKeypoints self kpts).val 0 i 1
        = (kpts.val i 1 - (self.image_rows_ : α) / 2) / (scalingOf self : Tensor2 α).val 0 0 := by
  have hs0 : (scalingOf self : Tensor2 α).size0 = 1 := rfl
  have hs1 : (scalingOf self : Tensor2 α).size1 = 1 := rfl
  have h2 : bidx 2 1 = 1 := rfl
  have h20 : bidx 2 0 = 0 := rfl
  have h1 : ∀ x, bidx 1 x = 0 := fun x => rfl
  constructor <;>
    simp [normalizeKeypoints, Tensor2.unsqueeze0, Tensor2.div, Tensor2.sub, Tensor2.zipWith,
      Tensor2.divScalar, imageSize, Tensor1.stack1, Tensor1.mulInt, Tensor1.ones, hc, hs0, hs1,
      h2, h20, h1, bsize_one_right, bsize_self, bidx_of_lt hi]

end MatcherFacts

/-! ## The claims -/

section Claims

open Finset Filter Topology

/-- C1: for a score tensor of shape `(b, m, n)` (any `m`, `n`, in particular `m, n ≥ 1`),
any `alpha` and any iteration count `iters ≥ 0`, `logOptimalTransport` returns a tensor of
shape `(b, m + 1, n + 1)` whose batch element `k` is `couplings + u (+) v - norm`, with
`couplings`, `norm`, `log_mu`, `log_nu` as the specification builds them and `(u, v)` obtained
from zero by exactly `iters` rounds of the two updates, `v` using the just-updated `u`. -/
theorem logOptimalTransport_eq_spec {α : Type} [LinearOrderedField α] (log : α → α)
    (logsumexp : List α → α) (scores : Tensor3 α) (alpha : α) (iters : Int)
    (hiters : 0 ≤ iters) :
    (logOptimalTransport log logsumexp scores alpha iters).size0 = scores.size0
    ∧ (logOptimalTransport log logsumexp scores alpha iters).size1 = scores.size1 + 1
    ∧ (logOptimalTransport log logsumexp scores alpha iters).size2 = scores.size2 + 1
    ∧ ((iters.toNat : Int) = iters)
    ∧ ∀ k i j, k < scores.size0 → i < scores.size1 + 1 → j < scores.size2 + 1 →
        (logOptimalTransport log logsumexp scores alpha iters).val k i j
          = specTransport log logsumexp (scores.val k) alpha scores.size1 scores.size2
              iters.toNat i j := by
  obtain ⟨h0, h1, h2, h3⟩ := logOptimalTransport_refines log logsumexp scores alpha iters
  exact ⟨h0, h1, h2, Int.toNat_of_nonneg hiters, h3⟩

/-- Witness of C1 on the one-by-one score matrix, one round. -/
theorem logOptimalTransport_eq_spec_witness :
    ((0 : Int) ≤ 1)
    ∧ ((logOptimalTransport Real.log (fun xs => Real.log ((xs.map Real.exp).sum))
          unitScores 0 1).size0 = (unitScores : Tensor3 ℝ).size0
      ∧ (logOptimalTransport Real.log (fun xs => Real.log ((xs.map Real.exp).sum))
          unitScores 0 1).size1 = (unitScores : Tensor3 ℝ).size1 + 1
      ∧ (logOptimalTransport Real.log (fun xs => Real.log ((xs.map Real.exp).sum))
          unitScores 0 1).size2 = (unitScores : Tensor3 ℝ).size2 + 1
      ∧ (((1 : Int).toNat : Int) = 1)
      ∧ ∀ k i j, k < (unitScores : Tensor3 ℝ).size0 → i < (unitScores : Tensor3 ℝ).size1 + 1 →
          j < (unitScores : Tensor3 ℝ).size2 + 1 →
          (logOptimalTransport Real.log (fun xs => Real.log ((xs.map Real.exp).sum))
              unitScores 0 1).val k i j
            = specTransport Real.log (fun xs => Real.log ((xs.map Real.exp).sum))
                ((unitScores : Tensor3 ℝ).val k) 0 (unitScores : Tensor3 ℝ).size1
                (unitScores : Tensor3 ℝ).size2 (1 : Int).toNat i j) :=
  ⟨by decide,
    logOptimalTransport_eq_spec Real.log (fun xs => Real.log ((xs.map Real.exp).sum))
      unitScores 0 1 (by decide)⟩

/-- C4: with `iters = 0`, for a score tensor of shape `(b, m, n)` (any `m`, `n`, in
particular `m, n ≥ 1`), the returned tensor is the augmented matrix minus `norm`: its entry
`(i, j)` is `scores[i,j] + log(m+n)` for `i < m`, `j < n`, and `alpha + log(m+n)` whenever
`i = m` or `j = n`. -/
theorem logOptimalTransport_zero_iters {α : Type} [LinearOrderedField α] (log : α → α)
    (logsumexp : List α → α) (scores : Tensor3 α) (alpha : α) (k i j : Nat)
    (hk : k < scores.size0) (hi : i < scores.size1 + 1) (hj : j < scores.size2 + 1) :
    (i < scores.size1 → j < scores.size2 →
      (logOptimalTransport log logsumexp scores alpha 0).val k i j
        = scores.val k i j + log (((scores.size1 + scores.size2 : Nat) : α)))
    ∧ (i = scores.size1 ∨ j = scores.size2 →
      (logOptimalTransport log logsumexp scores alpha 0).val k i j
        = alpha + log (((scores.size1 + scores.size2 : Nat) : α))) := by
  have h := (logOptimalTransport_refines log logsumexp scores alpha 0).2.2.2 k i j hk hi hj
  have h0 : (logOptimalTransport log logsumexp scores alpha 0).val k i j
      = specCouplings (scores.val k) alpha scores.size1 scores.size2 i j
        + log (((scores.size1 + scores.size2 : Nat) : α)) := by
    rw [h]
    simp [specTransport, specPotentials, specNorm]
  constructor
  · intro hi1 hj1
    rw [h0]
    simp [specCouplings, hi1, hj1]
  · intro hor
    rw [h0]
    have : ¬ (i < scores.size1 ∧ j < scores.size2) := by
      rcases hor with h1 | h1 <;> omega
    simp [specCouplings, this]

/-- Witness of C4 on the one-by-one score matrix. -/
theorem logOptimalTransport_zero_iters_witness :
    (0 < (unitScores : Tensor3 ℝ).size0 ∧ 0 < (unitScores : Tensor3 ℝ).size1 + 1
      ∧ 1 < (unitScores : Tensor3 ℝ).size2 + 1)
    ∧ ((0 < (unitScores : Tensor3 ℝ).size1 → 1 < (unitScores : Tensor3 ℝ).size2 →
        (logOptimalTransport Real.log (fun xs => Real.log ((xs.map Real.exp).sum))
            unitScores 3 0).val 0 0 1
          = (unitScores : Tensor3 ℝ).val 0 0 1 + Real.log ((((unitScores : Tensor3 ℝ).size1
              + (unitScores : Tensor3 ℝ).size2 : Nat) : ℝ)))
      ∧ (0 = (unitScores : Tensor3 ℝ).size1 ∨ 1 = (unitScores : Tensor3 ℝ).size2 →
        (logOptimalTransport Real.log (fun xs => Real.log ((xs.map Real.exp).sum))
            unitScores 3 0).val 0 0 1
          = 3 + Real.log ((((unitScores : Tensor3 ℝ).size1
              + (unitScores : Tensor3 ℝ).size2 : Nat) : ℝ)))) :=
  ⟨⟨by decide, by decide, by decide⟩,
    logOptimalTransport_zero_iters Real.log (fun xs => Real.log ((xs.map Real.exp).sum))
      unitScores 3 0 0 1 (by decide) (by decide) (by decide)⟩

/-- C10: for `m, n ≥ 1` and `iters ≥ 1` the returned tensor satisfies the column marginals
exactly: every real column of `exp(Z)` sums to `1` over all `m + 1` rows, the dustbin
column sums to `m`, and the total mass of `exp(Z)` is `m + n`. -/
theorem logOptimalTransport_column_marginals (scores : Tensor3 ℝ) (alpha : ℝ) (iters : Int)
    (hm : 1 ≤ scores.size1) (hn : 1 ≤ scores.size2) (hiters : 1 ≤ iters)
    (k : ℕ) (hk : k < scores.size0) :
    (∀ j, j < scores.size2 → ∑ i ∈ range (scores.size1 + 1),
        Real.exp ((logOptimalTransport Real.log (fun xs => Real.log ((xs.map Real.exp).sum))
          scores alpha iters).val k i j) = 1)
    ∧ ∑ i ∈ range (scores.size1 + 1),
        Real.exp ((logOptimalTransport Real.log (fun xs => Real.log ((xs.map Real.exp).sum))
          scores alpha iters).val k i scores.size2) = (scores.size1 : ℝ)
    ∧ ∑ i ∈ range (scores.size1 + 1), ∑ j ∈ range (scores.size2 + 1),
        Real.exp ((logOptimalTransport Real.log (fun xs => Real.log ((xs.map Real.exp).sum))
          scores alpha iters).val k i j) = (scores.size1 : ℝ) + scores.size2 := by
  have hcol := transport_colSum_int (fun xs => Real.log ((xs.map Real.exp).sum))
    (fun _ => rfl) scores alpha iters hiters hm k
  have _ := hn
  refine ⟨?_, ?_, ?_⟩
  · intro j hj
    rw [hcol j hk (by omega), if_pos hj]
  · rw [hcol scores.size2 hk (by omega), if_neg (lt_irrefl _)]
  · rw [Finset.sum_comm, Finset.sum_range_succ]
    rw [hcol scores.size2 hk (by omega), if_neg (lt_irrefl _)]
    have h1 : ∀ j ∈ range scores.size2, ∑ i ∈ range (scores.size1 + 1),
        Real.exp ((logOptimalTransport Real.log (fun xs => Real.log ((xs.map Real.exp).sum))
          scores alpha iters).val k i j) = 1 := by
      intro j hj
      have hj1 := Finset.mem_range.mp hj
      rw [hcol j hk (by omega), if_pos hj1]
    rw [Finset.sum_congr rfl h1]
    simp
    ring

/-- Witness of C10 on the one-by-one score matrix, one round. -/
theorem logOptimalTransport_column_marginals_witness :
    (1 ≤ (unitScores : Tensor3 ℝ).size1 ∧ 1 ≤ (unitScores : Tensor3 ℝ).size2 ∧ (1 : Int) ≤ 1
      ∧ 0 < (unitScores : Tensor3 ℝ).size0)
    ∧ ((∀ j, j < (unitScores : Tensor3 ℝ).size2 →
        ∑ i ∈ range ((unitScores : Tensor3 ℝ).size1 + 1),
          Real.exp ((logOptimalTransport Real.log (fun xs => Real.log ((xs.map Real.exp).sum))
            unitScores 0 1).val 0 i j) = 1)
      ∧ ∑ i ∈ range ((unitScores : Tensor3 ℝ).size1 + 1),
          Real.exp ((logOptimalTransport Real.log (fun xs => Real.log ((xs.map Real.exp).sum))
            unitScores 0 1).val 0 i (unitScores : Tensor3 ℝ).size2)
          = ((unitScores : Tensor3 ℝ).size1 : ℝ)
      ∧ ∑ i ∈ range ((unitScores : Tensor3 ℝ).size1 + 1),
          ∑ j ∈ range ((unitScores : Tensor3 ℝ).size2 + 1),
          Real.exp ((logOptimalTransport Real.log (fun xs => Real.log ((xs.map Real.exp).sum))
            unitScores 0 1).val 0 i j)
          = ((unitScores : Tensor3 ℝ).size1 : ℝ) + (unitScores : Tensor3 ℝ).size2) :=
  ⟨⟨by decide, by decide, by decide, by decide⟩,
    logOptimalTransport_column_marginals unitScores 0 1 (by decide) (by decide) (by decide) 0
      (by decide)⟩

/-- C2, counterexample: with `iters = 0` on the one-by-one score matrix `[[0]]` and
`alpha = 0` the entry `Z[0,0]` is `log 2`, so `exp(Z[0,0]) = 2` is not in `(0, 1]`. -/
theorem confidence_zero_iters_exceeds_one :
    Real.exp ((logOptimalTransport Real.log (fun xs => Real.log ((xs.map Real.exp).sum))
      unitScores 0 0).val 0 0 0) = 2
    ∧ ¬ (0 < Real.exp ((logOptimalTransport Real.log
            (fun xs => Real.log ((xs.map Real.exp).sum)) unitScores 0 0).val 0 0 0)
        ∧ Real.exp ((logOptimalTransport Real.log
            (fun xs => Real.log ((xs.map Real.exp).sum)) unitScores 0 0).val 0 0 0) ≤ 1) := by
  have h : Real.exp ((logOptimalTransport Real.log
      (fun xs => Real.log ((xs.map Real.exp).sum)) unitScores 0 0).val 0 0 0) = 2 := by
    rw [(logOptimalTransport_refines Real.log _ unitScores 0 0).2.2.2 0 0 0 (by decide)
      (by decide) (by decide)]
    simp only [specTransport, specPotentials, specNorm, specCouplings, unitScores,
      Int.toNat_zero, Function.iterate_zero, id_eq]
    norm_num
    rw [Real.exp_log (by norm_num)]
  refine ⟨h, ?_⟩
  rw [h]
  norm_num

/-- C2, amended: for `iters ≥ 1`, every entry `Z[i,j]` with `i < m`, `j < n` (so that
`m, n ≥ 1`) of the returned tensor satisfies `0 < exp(Z[i,j]) ≤ 1`. -/
theorem confidence_in_unit_interval (scores : Tensor3 ℝ) (alpha : ℝ) (iters : Int)
    (hiters : 1 ≤ iters)
    (k i j : ℕ) (hk : k < scores.size0) (hi : i < scores.size1) (hj : j < scores.size2) :
    0 < Real.exp ((logOptimalTransport Real.log (fun xs => Real.log ((xs.map Real.exp).sum))
          scores alpha iters).val k i j)
    ∧ Real.exp ((logOptimalTransport Real.log (fun xs => Real.log ((xs.map Real.exp).sum))
          scores alpha iters).val k i j) ≤ 1 := by
  refine ⟨Real.exp_pos _, ?_⟩
  have hcol := transport_colSum_int (fun xs => Real.log ((xs.map Real.exp).sum))
    (fun _ => rfl) scores alpha iters hiters (by omega) k j hk (by omega)
  rw [if_pos hj] at hcol
  rw [← hcol]
  exact Finset.single_le_sum
    (f := fun i => Real.exp ((logOptimalTransport Real.log
      (fun xs => Real.log ((xs.map Real.exp).sum)) scores alpha iters).val k i j))
    (fun _ _ => (Real.exp_pos _).le) (Finset.mem_range.mpr (by omega))

/-- Witness of the amended C2 on the one-by-one score matrix, one round. -/
theorem confidence_in_unit_interval_witness :
    ((1 : Int) ≤ 1 ∧ 0 < (unitScores : Tensor3 ℝ).size0
      ∧ 0 < (unitScores : Tensor3 ℝ).size1 ∧ 0 < (unitScores : Tensor3 ℝ).size2)
    ∧ (0 < Real.exp ((logOptimalTransport Real.log
            (fun xs => Real.log ((xs.map Real.exp).sum)) unitScores 0 1).val 0 0 0)
      ∧ Real.exp ((logOptimalTransport Real.log
            (fun xs => Real.log ((xs.map Real.exp).sum)) unitScores 0 1).val 0 0 0) ≤ 1) :=
  ⟨⟨by decide, by decide, by decide, by decide⟩,
    confidence_in_unit_interval unitScores 0 1 (by decide) 0 0 0
      (by decide) (by decide) (by decide)⟩

/-- C3, counterexample: on the one-by-one score matrix `[[0]]` with `alpha = 0` the sum of
column `0` of `exp(Z)` does not converge to `nu[0] = exp(log_nu[0]) = 1/2` as the iteration
count grows (it is `1` from the first round on). -/
theorem column_sum_not_tendsto_nu :
    ¬ Tendsto (fun t : ℕ => ∑ i ∈ range ((unitScores : Tensor3 ℝ).size1 + 1),
        Real.exp ((logOptimalTransport Real.log (fun xs => Real.log ((xs.map Real.exp).sum))
          unitScores 0 (t : ℤ)).val 0 i 0)) atTop
      (𝓝 (Real.exp ((logNuOf Real.log 1 1 1 : Tensor2 ℝ).val 0 0))) := by
  intro h
  have h1 := transport_colSum_tendsto (fun xs => Real.log ((xs.map Real.exp).sum))
    (fun _ => rfl) unitScores 0 0 0 (by decide) (by decide)
  have h2 := tendsto_nhds_unique h h1
  rw [exp_specLogNu_sub_norm _ _ _ (by decide), logNuOf_val] at h2
  have h3 : Real.exp (specLogNu Real.log 1 1 0) = 1 / 2 := by
    simp only [specLogNu, Nat.lt_one_iff, if_true]
    rw [exp_specNorm 1 1 (by decide)]
    norm_num
  rw [h3] at h2
  simp [unitScores] at h2

/-- C3, amended: for `m, n ≥ 1`, as the iteration count tends to infinity the row sums of
`exp(Z)` converge to `(m + n) * mu` and the column sums to `(m + n) * nu`, where
`mu = exp(log_mu)` and `nu = exp(log_nu)` are the target marginals of the solver (that is,
`1` for a real row or column, `n` for the dustbin row and `m` for the dustbin column). -/
theorem marginals_tendsto_rescaled (scores : Tensor3 ℝ) (alpha : ℝ)
    (hm : 1 ≤ scores.size1) (hn : 1 ≤ scores.size2) (k : ℕ) (hk : k < scores.size0) :
    (∀ i, i < scores.size1 + 1 →
      Tendsto (fun t : ℕ => ∑ j ∈ range (scores.size2 + 1),
          Real.exp ((logOptimalTransport Real.log (fun xs => Real.log ((xs.map Real.exp).sum))
            scores alpha (t : ℤ)).val k i j)) atTop
        (𝓝 (((scores.size1 : ℝ) + scores.size2)
          * Real.exp ((logMuOf Real.log scores.size0 scores.size1 scores.size2).val k i))))
    ∧ (∀ j, j < scores.size2 + 1 →
      Tendsto (fun t : ℕ => ∑ i ∈ range (scores.size1 + 1),
          Real.exp ((logOptimalTransport Real.log (fun xs => Real.log ((xs.map Real.exp).sum))
            scores alpha (t : ℤ)).val k i j)) atTop
        (𝓝 (((scores.size1 : ℝ) + scores.size2)
          * Real.exp ((logNuOf Real.log scores.size0 scores.size1 scores.size2).val k j))))
    := by
  have hpos : 0 < scores.size1 + scores.size2 := by omega
  constructor
  · intro i hi
    have h := transport_rowSum_tendsto (fun xs => Real.log ((xs.map Real.exp).sum))
      (fun _ => rfl) scores alpha k i hm hn hk hi
    rw [sub_eq_add_neg, Real.exp_add, exp_neg_specNorm _ _ hpos, mul_comm] at h
    rw [logMuOf_val]
    exact h
  · intro j hj
    have h := transport_colSum_tendsto (fun xs => Real.log ((xs.map Real.exp).sum))
      (fun _ => rfl) scores alpha k j hk hj
    rw [sub_eq_add_neg, Real.exp_add, exp_neg_specNorm _ _ hpos, mul_comm] at h
    rw [logNuOf_val]
    exact h

/-- Witness of the amended C3 on the one-by-one score matrix. -/
theorem marginals_tendsto_rescaled_witness :
    (1 ≤ (unitScores : Tensor3 ℝ).size1 ∧ 1 ≤ (unitScores : Tensor3 ℝ).size2
      ∧ 0 < (unitScores : Tensor3 ℝ).size0)
    ∧ ((∀ i, i < (unitScores : Tensor3 ℝ).size1 + 1 →
        Tendsto (fun t : ℕ => ∑ j ∈ range ((unitScores : Tensor3 ℝ).size2 + 1),
            Real.exp ((logOptimalTransport Real.log
              (fun xs => Real.log ((xs.map Real.exp).sum)) unitScores 0 (t : ℤ)).val 0 i j))
          atTop
          (𝓝 ((((unitScores : Tensor3 ℝ).size1 : ℝ) + (unitScores : Tensor3 ℝ).size2)
            * Real.exp ((logMuOf Real.log (unitScores : Tensor3 ℝ).size0
                (unitScores : Tensor3 ℝ).size1 (unitScores : Tensor3 ℝ).size2).val 0 i))))
      ∧ (∀ j, j < (unitScores : Tensor3 ℝ).size2 + 1 →
        Tendsto (fun t : ℕ => ∑ i ∈ range ((unitScores : Tensor3 ℝ).size1 + 1),
            Real.exp ((logOptimalTransport Real.log
              (fun xs => Real.log ((xs.map Real.exp).sum)) unitScores 0 (t : ℤ)).val 0 i j))
          atTop
          (𝓝 ((((unitScores : Tensor3 ℝ).size1 : ℝ) + (unitScores : Tensor3 ℝ).size2)
            * Real.exp ((logNuOf Real.log (unitScores : Tensor3 ℝ).size0
                (unitScores : Tensor3 ℝ).size1 (unitScores : Tensor3 ℝ).size2).val 0 j))))) :=
  ⟨⟨by decide, by decide, by decide⟩,
    marginals_tendsto_rescaled unitScores 0 (by decide) (by decide) 0 (by decide)⟩

/-- C6, counterexample: the constructor accepts `sinkhorn_iterations = -1`, and with
`iters = -1` the solver returns a `(1, 2, 2)` tensor, the very tensor it returns for
`iters = 0`; nothing is rejected. -/
theorem negative_iters_not_rejected :
    construct 480 640 (-1) "indoor" = some ⟨480, 640, -1, "indoor"⟩
    ∧ logOptimalTransport Real.log (fun xs => Real.log ((xs.map Real.exp).sum))
        unitScores 0 (-1)
      = logOptimalTransport Real.log (fun xs => Real.log ((xs.map Real.exp).sum))
        unitScores 0 0
    ∧ (logOptimalTransport Real.log (fun xs => Real.log ((xs.map Real.exp).sum))
        unitScores 0 (-1)).size1 = 2
    ∧ (logOptimalTransport Real.log (fun xs => Real.log ((xs.map Real.exp).sum))
        unitScores 0 (-1)).size2 = 2 := by
  refine ⟨by simp [construct], rfl, ?_, ?_⟩
  · exact (logOptimalTransport_refines Real.log _ unitScores 0 (-1)).2.1
  · exact (logOptimalTransport_refines Real.log _ unitScores 0 (-1)).2.2.1

/-- C6, amended: for every `iters < 0` the loop body never runs and the solver returns
the same tensor as for `iters = 0` (the augmented matrix minus `norm`). -/
theorem logOptimalTransport_neg_iters {α : Type} [LinearOrderedField α] (log : α → α)
    (logsumexp : List α → α) (scores : Tensor3 α) (alpha : α) (iters : Int)
    (hiters : iters < 0) :
    logOptimalTransport log logsumexp scores alpha iters
      = logOptimalTransport log logsumexp scores alpha 0 := by
  have h : iters.toNat = 0 := Int.toNat_eq_zero.mpr hiters.le
  simp [logOptimalTransport, logSinkhornIterations, sinkhornPotentials, h]

/-- Witness of the amended C6 at `iters = -1`. -/
theorem logOptimalTransport_neg_iters_witness :
    ((-1 : Int) < 0)
    ∧ logOptimalTransport Real.log (fun xs => Real.log ((xs.map Real.exp).sum))
        unitScores 0 (-1)
      = logOptimalTransport Real.log (fun xs => Real.log ((xs.map Real.exp).sum))
        unitScores 0 0 :=
  ⟨by decide, logOptimalTransport_neg_iters Real.log
    (fun xs => Real.log ((xs.map Real.exp).sum)) unitScores 0 (-1) (by decide)⟩

/-- C5, the code at the failing inputs: with 480 rows and 640 columns the divisor that
`normalizeKeypoints` computes is `0`; with 640 rows and 480 columns it is `1.7`, and the
keypoint row `(0, 0)` is sent to `(-240 / 1.7, -320 / 1.7)`, whereas the claimed divisor
`max(480, 640) * 1.7` gives `-240 / (640 * 1.7)` for the first coordinate. -/
theorem normalizeKeypoints_divisor_defect :
    (scalingOf landscape : Tensor2 ℚ).val 0 0 = 0
    ∧ (scalingOf portrait : Tensor2 ℚ).val 0 0 = 1.7
    ∧ (normalizeKeypoints portrait (originRow : Tensor2 ℚ)).val 0 0 0 = -240 / 1.7
    ∧ (normalizeKeypoints portrait (originRow : Tensor2 ℚ)).val 0 0 1 = -320 / 1.7
    ∧ (normalizeKeypoints portrait (originRow : Tensor2 ℚ)).val 0 0 0
        ≠ (0 - 480 / 2) / (640 * 1.7) := by
  have h := normalizeKeypoints_val portrait (originRow : Tensor2 ℚ) rfl 0 (by decide)
  rw [h.1, h.2, scalingOf_val, scalingOf_val]
  simp only [portrait, landscape, originRow]
  norm_num

/-- C7, the code on every input: the dictionary handed to the inference module binds
`descriptors0` and `descriptors1` to the keypoint-confidence tensors `scores0_tensor` and
`scores1_tensor`, not to the descriptor tensors built from `desc0` and `desc1`. -/
theorem descriptors_bound_to_scores {α : Type} [LinearOrderedField α] (self : Fields)
    (kpts0 kpts1 : List (KeyPoint α)) (desc0 desc1 : Mat α) :
    List.lookup "descriptors0" (matchData self kpts0 kpts1 desc0 desc1)
        = some (AnyTensor.float2 (scoresTensor kpts0))
    ∧ List.lookup "descriptors1" (matchData self kpts0 kpts1 desc0 desc1)
        = some (AnyTensor.float2 (scoresTensor kpts1))
    ∧ List.lookup "descriptors0" (matchData self kpts0 kpts1 desc0 desc1)
        ≠ some (AnyTensor.float3 (descriptorsTensor desc0))
    ∧ List.lookup "descriptors1" (matchData self kpts0 kpts1 desc0 desc1)
        ≠ some (AnyTensor.float3 (descriptorsTensor desc1)) := by
  have h0 : List.lookup "descriptors0" (matchData self kpts0 kpts1 desc0 desc1)
      = some (AnyTensor.float2 (scoresTensor kpts0)) := by
    simp [matchData, Dict.insert, List.lookup]
  have h1 : List.lookup "descriptors1" (matchData self kpts0 kpts1 desc0 desc1)
      = some (AnyTensor.float2 (scoresTensor kpts1)) := by
    simp [matchData, Dict.insert, List.lookup]
  refine ⟨h0, h1, ?_, ?_⟩
  · rw [h0]
    simp
  · rw [h1]
    simp

/-- C8, the code at the failing input: on the tensor with `Z[0,0,1] = 5`, `Z[0,1,0] = 7`
and zeros elsewhere (`N0 = N1 = 2`) the name `indices0` is bound to the floating tensor of
row maxima `[5, 7]` and `indices1` to the column maxima `[7, 5]`; the arg-max indices
`[1, 0]` are bound to `values0` and `values1`, and the `gather` on the two floating tensors
fails. -/
theorem indices_bound_to_max_values :
    (∃ t : Tensor2 ℚ, (matchBindings (peakScores : Tensor3 ℚ)).indices0 = AnyTensor.float2 t
        ∧ t.val 0 0 = 5 ∧ t.val 0 1 = 7)
    ∧ (∃ t : Tensor2 ℚ, (matchBindings (peakScores : Tensor3 ℚ)).indices1 = AnyTensor.float2 t
        ∧ t.val 0 0 = 7 ∧ t.val 0 1 = 5)
    ∧ (∃ t : Tensor2 Nat, (matchBindings (peakScores : Tensor3 ℚ)).values0 = AnyTensor.long2 t
        ∧ t.val 0 0 = 1 ∧ t.val 0 1 = 0)
    ∧ (∃ t : Tensor2 Nat, (matchBindings (peakScores : Tensor3 ℚ)).values1 = AnyTensor.long2 t
        ∧ t.val 0 0 = 1 ∧ t.val 0 1 = 0)
    ∧ (matchBindings (peakScores : Tensor3 ℚ)).aa = none := by
  refine ⟨⟨_, rfl, ?_, ?_⟩, ⟨_, rfl, ?_, ?_⟩, ⟨_, rfl, ?_, ?_⟩, ⟨_, rfl, ?_, ?_⟩, rfl⟩ <;>
    simp [Tensor3.max2, Tensor3.max1, Tensor3.slice1, Tensor3.slice2, peakScores, argmaxUpTo]

/-- C9, the code at the failing input: with 640 rows and 480 columns, the keypoint at the
image centre `x = 240`, `y = 320` is stored under `keypoints0` as
`((320 - 480/2) / 1.7, (240 - 640/2) / 1.7)`: `image_cols/2` is subtracted from `pt.y` and
`image_rows/2` from `pt.x`, so neither coordinate is `0`. -/
theorem keypoints0_axes_swapped :
    ∃ T : Tensor3 ℚ,
      List.lookup "keypoints0" (matchData portrait centreKeypoints centreKeypoints unitDesc
          unitDesc) = some (AnyTensor.float3 T)
      ∧ T.val 0 0 0 = (320 - 480 / 2) / 1.7 ∧ T.val 0 0 1 = (240 - 640 / 2) / 1.7
      ∧ T.val 0 0 0 ≠ 0 ∧ T.val 0 0 1 ≠ 0 := by
  refine ⟨normalizeKeypoints portrait (kptsTensor centreKeypoints), ?_, ?_⟩
  · simp [matchData, Dict.insert, List.lookup]
  · have h := normalizeKeypoints_val portrait (kptsTensor (centreKeypoints : List (KeyPoint ℚ)))
      rfl 0 (by decide)
    rw [h.1, h.2, scalingOf_val]
    simp only [portrait, kptsTensor, from_blob2, kptsMat, centreKeypoints]
    norm_num

end Claims

end SuperGlue
